import Mathlib

/-!
# Rias — a Lavalink v4 client: shallow embedding and verification

This file embeds the core data model and operations of the Rias library
(queue engine, node session, per-guild player, cluster node selection)
as executable Lean definitions translated from the TypeScript source,
and proves or refutes the specification claims about them.
-/

namespace Rias

/-- Track metadata, following the source `TrackInfo` interface
(only the fields the verified operations consult are carried). -/
structure TrackInfo where
  identifier : String
  author : String
  title : String
  length : Nat
  isStream : Bool
  isSeekable : Bool
  deriving DecidableEq, Repr

/-- A Lavalink track: opaque `encoded` blob plus metadata, as in the source
`Track` interface. -/
structure Track where
  encoded : String
  info : TrackInfo
  deriving DecidableEq, Repr

/-- Loop modes for the queue (source enum `LoopMode`). -/
inductive LoopMode where
  | none
  | track
  | queue
  deriving DecidableEq, Repr

/-- The queue state: ordered track list, current and previous track, and
loop mode, as the mutable fields of the source `Queue` class. -/
structure Queue where
  tracks : List Track
  current : Option Track
  previous : Option Track
  loopMode : LoopMode
  deriving DecidableEq, Repr

/-- `Queue.poll` from the source: under `LoopMode.Track` with a current track
return it unchanged; otherwise shift the first track into `current`, move the
old `current` to `previous`, and under `LoopMode.Queue` append the old
`current` to the tail when both old and new `current` exist.  Returns the
polled track together with the updated queue. -/
def Queue.poll (q : Queue) : Option Track × Queue :=
  if q.loopMode = LoopMode.track ∧ q.current.isSome then
    (q.current, q)
  else
    let previous := q.current
    let current := q.tracks.head?
    let base := q.tracks.tail
    let tracks :=
      match q.loopMode, current, previous with
      | LoopMode.queue, some _, some p => base ++ [p]
      | _, _, _ => base
    (current, { tracks := tracks, current := current, previous := previous,
                loopMode := q.loopMode })

/-- Iterate `poll`, keeping only the final queue state. -/
def Queue.pollIter (q : Queue) : Nat → Queue
  | 0 => q
  | n + 1 => (q.poll).2.pollIter n

/-- `Queue.toggleLoop` from the source: flips `LoopMode.None` to
`LoopMode.Queue` and any other mode to `LoopMode.None`; returns the new
mode together with the updated queue. -/
def Queue.toggleLoop (q : Queue) : LoopMode × Queue :=
  let m := if q.loopMode = LoopMode.none then LoopMode.queue else LoopMode.none
  (m, { q with loopMode := m })

/-- The multiset of tracks a queue holds: the queued list plus the current
track (if any). -/
def Queue.heldTracks (q : Queue) : Multiset Track :=
  (q.tracks : Multiset Track) + (q.current.toList : Multiset Track)

/-- A sample track used by concrete witnesses. -/
def sampleTrack (id : String) (author : String) : Track :=
  { encoded := "enc-" ++ id,
    info := { identifier := id, author := author, title := "t-" ++ id,
              length := 180000, isStream := false, isSeekable := true } }

/-- A concrete track-looping queue, for witnesses. -/
def qTrackEx : Queue :=
  { tracks := [sampleTrack "2" "B"], current := some (sampleTrack "1" "A"),
    previous := Option.none, loopMode := LoopMode.track }

/-- A concrete queue-looping queue, for witnesses. -/
def qQueueEx : Queue :=
  { tracks := [sampleTrack "2" "B"], current := some (sampleTrack "1" "A"),
    previous := Option.none, loopMode := LoopMode.queue }

/-- Connection states for the node (source enum `ConnectionState`). -/
inductive ConnectionState where
  | disconnected
  | connecting
  | connected
  | reconnecting
  deriving DecidableEq, Repr

/-- JavaScript truthiness of a nullable string: `!s` holds for both `null`
and the empty string, so `s` is truthy iff present and non-empty. -/
def optStrTruthy : Option String → Bool
  | Option.none => false
  | some s => !(s == "")

/-- Mutable state of a `Node` together with its construction-time options
(the fields of the source `Node` class that the verified operations read
or write). -/
structure NodeState where
  connected : Bool
  sessionId : Option String
  clientId : Option String
  connectionState : ConnectionState
  reconnectAttempts : Nat
  reconnectTimerPending : Bool
  ws : Bool
  resumeKey : Option String
  resumeTimeout : Nat
  maxReconnectAttempts : Nat
  reconnectDelay : ℚ
  deriving DecidableEq, Repr

/-- `Node.isReady` from the source: `connected && sessionId !== null`. -/
def Node.isReady (s : NodeState) : Bool :=
  s.connected && s.sessionId.isSome

/-- Guard failures a REST operation can raise before any network request. -/
inductive NodeGuardError where
  | notReady
  | notConnected
  | pluginMissing
  deriving DecidableEq, Repr

/-- HTTP method of a REST request. -/
inductive RestMethod where
  | get
  | post
  | patch
  | delete
  deriving DecidableEq, Repr

/-- A network request a REST operation is about to perform: reaching this
point means network I/O happens. -/
structure RestRequest where
  method : RestMethod
  path : String
  timeoutMs : Nat
  deriving DecidableEq, Repr

/-- Whether a guarded REST operation goes on to perform network I/O. -/
def issuesRequest : Except NodeGuardError RestRequest → Bool
  | Except.ok _ => true
  | Except.error _ => false

/-- Guard phase of `Node.updatePlayer`: throws when `!this.sessionId`
(null or empty), then PATCHes the player with a 5 s timeout. -/
def Node.updatePlayerReq (s : NodeState) (guildId : String) (noReplace : Bool) :
    Except NodeGuardError RestRequest :=
  if !(optStrTruthy s.sessionId) then Except.error NodeGuardError.notReady
  else Except.ok
    { method := RestMethod.patch,
      path := "/sessions/" ++ s.sessionId.getD "" ++ "/players/" ++ guildId
              ++ (if noReplace then "?noReplace=true" else ""),
      timeoutMs := 5000 }

/-- Guard phase of `Node.destroyPlayer`: throws when `!this.sessionId`,
then DELETEs the player with a 5 s timeout. -/
def Node.destroyPlayerReq (s : NodeState) (guildId : String) :
    Except NodeGuardError RestRequest :=
  if !(optStrTruthy s.sessionId) then Except.error NodeGuardError.notReady
  else Except.ok
    { method := RestMethod.delete,
      path := "/sessions/" ++ s.sessionId.getD "" ++ "/players/" ++ guildId,
      timeoutMs := 5000 }

/-- Guard phase of `Node.loadTracks`: throws when `!this.connected`,
then GETs `/loadtracks` with a 10 s timeout. -/
def Node.loadTracksReq (s : NodeState) (identifier : String) :
    Except NodeGuardError RestRequest :=
  if !s.connected then Except.error NodeGuardError.notConnected
  else Except.ok
    { method := RestMethod.get,
      path := "/loadtracks?identifier=" ++ identifier, timeoutMs := 10000 }

/-- Guard phase of `Node.decodeTrack`: throws when `!this.connected`,
then GETs `/decodetrack` with a 5 s timeout. -/
def Node.decodeTrackReq (s : NodeState) (encoded : String) :
    Except NodeGuardError RestRequest :=
  if !s.connected then Except.error NodeGuardError.notConnected
  else Except.ok
    { method := RestMethod.get,
      path := "/decodetrack?encodedTrack=" ++ encoded, timeoutMs := 5000 }

/-- Guard phase of `Node.decodeTracks`: throws when `!this.connected`,
then POSTs `/decodetracks` with a 10 s timeout. -/
def Node.decodeTracksReq (s : NodeState) (_encoded : List String) :
    Except NodeGuardError RestRequest :=
  if !s.connected then Except.error NodeGuardError.notConnected
  else Except.ok
    { method := RestMethod.post, path := "/decodetracks", timeoutMs := 10000 }

/-- Guard-and-cache phase of `Node.getInfo`: throws when `!this.connected`;
with a valid, unforced cache it answers from the cache (no request),
otherwise it GETs `/info` with a 5 s timeout. -/
def Node.getInfoPlan (s : NodeState) (forceRefresh infoCacheValid : Bool) :
    Except NodeGuardError (Option RestRequest) :=
  if !s.connected then Except.error NodeGuardError.notConnected
  else if !forceRefresh && infoCacheValid then Except.ok Option.none
  else Except.ok (some { method := RestMethod.get, path := "/info", timeoutMs := 5000 })

/-- First observable action of `Node.pluginRequest`: throws when
`!this.connected`; with an empty plugin cache it first fetches `/info`
(unless the info cache short-circuits `hasPlugin`, in which case the plugin
is reported missing without I/O); with a cached plugin it fires the plugin
endpoint request (10 s timeout); a cached miss throws without I/O. -/
def Node.pluginRequestPlan (s : NodeState) (pluginCache : List String)
    (infoCacheValid : Bool) (pluginName endpoint : String) :
    Except NodeGuardError RestRequest :=
  if !s.connected then Except.error NodeGuardError.notConnected
  else if pluginCache.isEmpty then
    if infoCacheValid then Except.error NodeGuardError.pluginMissing
    else Except.ok { method := RestMethod.get, path := "/info", timeoutMs := 5000 }
  else if pluginName ∈ pluginCache then
    Except.ok { method := RestMethod.get, path := "/" ++ endpoint, timeoutMs := 10000 }
  else Except.error NodeGuardError.pluginMissing

/-- `Node.scheduleReconnect` from the source: clears any pending timer;
without a client id it emits an error and stops; otherwise it increments
`reconnectAttempts` and schedules a reconnect after
`min(reconnectDelay * 2^(attempts-1) + jitter, 30000)` ms, where `jitter`
is `Math.random() * 1000`.  Returns the new state and the scheduled delay. -/
def Node.scheduleReconnect (s : NodeState) (jitter : ℚ) :
    NodeState × Option ℚ :=
  if !(optStrTruthy s.clientId) then
    ({ s with reconnectTimerPending := false }, Option.none)
  else
    let attempts := s.reconnectAttempts + 1
    let delay := min (s.reconnectDelay * 2 ^ (attempts - 1) + jitter) 30000
    ({ s with connectionState := ConnectionState.reconnecting,
              reconnectAttempts := attempts,
              reconnectTimerPending := true }, some delay)

/-- `Node.onOpen` from the source (state effects): marks the node connected
and resets `reconnectAttempts` to 0.  (It also sends `configureResuming`
when applicable and kicks off plugin discovery, which do not change these
fields.) -/
def Node.onOpen (s : NodeState) : NodeState :=
  { s with connected := true,
           connectionState := ConnectionState.connected,
           reconnectAttempts := 0 }

/-- `Node.onClose` from the source: marks disconnected and drops the socket;
clears `sessionId` when there is no (truthy) resume key **or** the close code
is 1000; leaves a `RECONNECTING` state in place, otherwise records
`DISCONNECTED`; schedules a reconnect for non-1000 codes while attempts
remain. -/
def Node.onClose (s : NodeState) (code : Nat) (jitter : ℚ) : NodeState :=
  let s1 : NodeState := { s with connected := false, ws := false }
  let s2 : NodeState :=
    if !(optStrTruthy s1.resumeKey) || code == 1000 then
      { s1 with sessionId := Option.none }
    else s1
  let s3 : NodeState :=
    if s2.connectionState ≠ ConnectionState.reconnecting then
      { s2 with connectionState := ConnectionState.disconnected }
    else s2
  if code ≠ 1000 ∧ s3.reconnectAttempts < s3.maxReconnectAttempts then
    (Node.scheduleReconnect s3 jitter).1
  else s3

/-- `Node.disconnect` from the source: a no-op without a socket; otherwise
records `DISCONNECTED`, cancels any pending reconnect timer, closes the
socket with code 1000, and clears `sessionId` unless a (truthy) resume key
is configured.  Returns the new state and the close code sent. -/
def Node.disconnect (s : NodeState) : NodeState × Option Nat :=
  if !s.ws then (s, Option.none)
  else
    let s1 : NodeState :=
      { s with connectionState := ConnectionState.disconnected,
               connected := false, reconnectTimerPending := false, ws := false }
    let s2 : NodeState :=
      if !(optStrTruthy s1.resumeKey) then { s1 with sessionId := Option.none }
      else s1
    (s2, some 1000)

/-- A baseline node state for concrete counterexamples and witnesses. -/
def nodeBase : NodeState :=
  { connected := false, sessionId := Option.none, clientId := some "client",
    connectionState := ConnectionState.disconnected, reconnectAttempts := 0,
    reconnectTimerPending := false, ws := false, resumeKey := Option.none,
    resumeTimeout := 60, maxReconnectAttempts := 5, reconnectDelay := 3000 }

/-- A node with a session id but no live connection. -/
def nodeHalfReadyA : NodeState :=
  { nodeBase with connected := false, sessionId := some "S" }

/-- A node that is connected but has not yet received a session id. -/
def nodeHalfReadyB : NodeState :=
  { nodeBase with connected := true, sessionId := Option.none }

/-- A node state holding a session and a resume key, for the C2
counterexample. -/
def nodeWithResume : NodeState :=
  { nodeBase with
    connected := true
    ws := true
    connectionState := ConnectionState.connected
    sessionId := some "S"
    resumeKey := some "resume" }

/-- A node one failed attempt in, with base delay 1000, for the C7 witness. -/
def nodeBackoffEx : NodeState :=
  { nodeBase with reconnectDelay := 1000, reconnectAttempts := 1 }


/-! ## Queue: shuffle and smart shuffle -/

/-- The JS destructuring swap `[l[i], l[j]] = [l[j], l[i]]` (identity when an
index is out of range, which the callers never do). -/
def listSwap {α : Type} (l : List α) (i j : Nat) : List α :=
  match l[i]?, l[j]? with
  | some a, some b => (l.set i b).set j a
  | _, _ => l

/-- One backward pass of the source's Fisher–Yates loop, from index `i` down
to 1; `rand i` models the random draw at index `i` (reduced mod `i+1` to the
range `floor(Math.random()*(i+1))` takes). -/
def fisherYatesF {α : Type} (rand : Nat → Nat) : List α → Nat → List α
  | l, 0 => l
  | l, i + 1 => fisherYatesF rand (listSwap l (i + 1) (rand (i + 1) % (i + 2))) i

/-- `Queue.shuffle`'s Fisher–Yates pass over a whole list (loop from
`length - 1` down to 1). -/
def fisherYates {α : Type} (rand : Nat → Nat) (l : List α) : List α :=
  fisherYatesF rand l (l.length - 1)

/-- `Queue.shuffle` from the source: uniform Fisher–Yates over the queued
tracks, with the random draws supplied by `rand`. -/
def Queue.fyShuffle (q : Queue) (rand : Nat → Nat) : Queue :=
  { q with tracks := fisherYates rand q.tracks }

/-- An artist bucket of `smartShuffle`: canonical author key and that
author's tracks. -/
structure ArtistBucket where
  key : String
  tracks : List Track
  deriving DecidableEq, Repr

instance : Inhabited ArtistBucket := ⟨⟨"", []⟩⟩

/-- Remaining size of a bucket. -/
def bsize (b : ArtistBucket) : Nat := b.tracks.length

/-- Character-list model of `String.prototype.toLowerCase`. -/
def lowerStr (s : String) : String := ⟨s.data.map Char.toLower⟩

/-- Character-list model of `String.prototype.trim`: strip whitespace from
both ends. -/
def trimStr (s : String) : String :=
  ⟨((s.data.dropWhile Char.isWhitespace).reverse.dropWhile
      Char.isWhitespace).reverse⟩

/-- The canonical author key: `track.info.author.trim().toLowerCase()`. -/
def authorKey (t : Track) : String := lowerStr (trimStr t.info.author)

/-- Add one track to the insertion-ordered author grouping (the JS `Map`
accumulation in `smartShuffle`). -/
def addToGroup : List ArtistBucket → Track → List ArtistBucket
  | [], t => [{ key := authorKey t, tracks := [t] }]
  | b :: bs, t =>
    if b.key = authorKey t then { b with tracks := b.tracks ++ [t] } :: bs
    else b :: addToGroup bs t

/-- Group tracks by author key in first-occurrence order. -/
def groupByAuthor (tracks : List Track) : List ArtistBucket :=
  tracks.foldl addToGroup []

/-- Shuffle each bucket internally (Fisher–Yates per bucket; `rand i` is the
random source for the `i`-th bucket). -/
def shuffleBuckets (rand : Nat → Nat → Nat) : Nat → List ArtistBucket → List ArtistBucket
  | _, [] => []
  | i, b :: bs =>
    { b with tracks := fisherYates (rand i) b.tracks } :: shuffleBuckets rand (i + 1) bs

/-- Bucket at index `i` of the array-encoded heap (callers stay in bounds). -/
def heapGet (h : List ArtistBucket) (i : Nat) : ArtistBucket := h.getD i default

/-- The sift-up loop of the source's `pushHeap`, with explicit fuel (the
index strictly decreases, so fuel `i + 1` always suffices). -/
def siftUpF : Nat → List ArtistBucket → Nat → List ArtistBucket
  | 0, h, _ => h
  | _ + 1, h, 0 => h
  | fuel + 1, h, i + 1 =>
    let p := (i + 1 - 1) / 2
    if bsize (heapGet h p) ≥ bsize (heapGet h (i + 1)) then h
    else siftUpF fuel (listSwap h p (i + 1)) p

/-- `pushHeap` from the source: append the bucket and sift it up. -/
def pushHeap (h : List ArtistBucket) (b : ArtistBucket) : List ArtistBucket :=
  siftUpF (h.length + 1) (h ++ [b]) h.length

/-- The sift-down loop of the source's `popHeap`, with explicit fuel (the
index strictly increases and stays below the unchanging length, so fuel
`h.length` always suffices). -/
def siftDownF : Nat → List ArtistBucket → Nat → List ArtistBucket
  | 0, h, _ => h
  | fuel + 1, h, i =>
    let left := 2 * i + 1
    let right := 2 * i + 2
    let largest1 :=
      if left < h.length ∧ bsize (heapGet h left) > bsize (heapGet h i) then left else i
    let largest2 :=
      if right < h.length ∧ bsize (heapGet h right) > bsize (heapGet h largest1) then right
      else largest1
    if largest2 = i then h
    else siftDownF fuel (listSwap h i largest2) largest2

/-- `popHeap` from the source: take the root, move the last bucket to the
root and sift it down; `none` on an empty heap. -/
def popHeap (h : List ArtistBucket) : Option (ArtistBucket × List ArtistBucket) :=
  match h with
  | [] => Option.none
  | top :: tail =>
    let last := (top :: tail).getLastD default
    match h.dropLast with
    | [] => some (top, [])
    | r :: rs => some (top, siftDownF h.length ((r :: rs).set 0 last) 0)

/-- Total number of tracks stored in the heap. -/
def heapTracksTotal (h : List ArtistBucket) : Nat := (h.map bsize).sum

/-- The multiset of tracks stored across a list of buckets. -/
def bucketsTracks (bs : List ArtistBucket) : Multiset Track :=
  (bs.map fun b => (b.tracks : Multiset Track)).sum

/-- Well-formed buckets: every stored track carries the bucket's key and no
bucket is empty. -/
def bucketsWF (bs : List ArtistBucket) : Prop :=
  ∀ b ∈ bs, (∀ t ∈ b.tracks, authorKey t = b.key) ∧ b.tracks ≠ []

/-- Pairwise-distinct bucket keys. -/
def keysNodup (bs : List ArtistBucket) : Prop :=
  (bs.map ArtistBucket.key).Nodup

/-- The binary-max-heap shape invariant of the array-encoded heap: every
non-root bucket is no larger than its parent at index `(j-1)/2`. -/
def IsHeap (h : List ArtistBucket) : Prop :=
  ∀ j, 0 < j → j < h.length →
    bsize (heapGet h ((j - 1) / 2)) ≥ bsize (heapGet h j)

/-- Heap except that position `i` may exceed its parent; in exchange the
parent of `i` still dominates the children of `i` (the sift-up invariant). -/
def AlmostHeapUp (h : List ArtistBucket) (i : Nat) : Prop :=
  (∀ j, 0 < j → j < h.length → j ≠ i →
    bsize (heapGet h ((j - 1) / 2)) ≥ bsize (heapGet h j))
  ∧ (0 < i → ∀ j, 0 < j → j < h.length → (j - 1) / 2 = i →
    bsize (heapGet h ((i - 1) / 2)) ≥ bsize (heapGet h j))

/-- Heap except that the children of position `i` may exceed it; in exchange
the parent of `i` still dominates those children (the sift-down invariant). -/
def AlmostHeapDown (h : List ArtistBucket) (i : Nat) : Prop :=
  (∀ j, 0 < j → j < h.length → (j - 1) / 2 ≠ i →
    bsize (heapGet h ((j - 1) / 2)) ≥ bsize (heapGet h j))
  ∧ (0 < i → ∀ j, 0 < j → j < h.length → (j - 1) / 2 = i →
    bsize (heapGet h ((i - 1) / 2)) ≥ bsize (heapGet h j))

/-- The emission loop of `smartShuffle`, with explicit fuel (each iteration
either emits a track or discards an exhausted bucket, so fuel
`2 * total + length + 1` always suffices): pop the largest bucket; if its key
repeats the previously emitted key and another bucket exists, use the
second-largest instead and push the first back; emit one track and push the
bucket back while tracks remain. -/
def smartLoopF : Nat → List ArtistBucket → Option String → List Track
  | 0, _, _ => []
  | fuel + 1, h, lastKey =>
    match popHeap h with
    | Option.none => []
    | some (b0, h0) =>
      if some b0.key = lastKey then
        match popHeap h0 with
        | some (alt, h0') =>
          match alt.tracks with
          | [] => smartLoopF fuel (pushHeap h0' b0) lastKey
          | t :: ts =>
            t :: smartLoopF fuel
              (if ts.isEmpty then pushHeap h0' b0
               else pushHeap (pushHeap h0' b0) { alt with tracks := ts })
              (some alt.key)
        | Option.none =>
          match b0.tracks with
          | [] => smartLoopF fuel h0 lastKey
          | t :: ts =>
            t :: smartLoopF fuel
              (if ts.isEmpty then h0 else pushHeap h0 { b0 with tracks := ts })
              (some b0.key)
      else
        match b0.tracks with
        | [] => smartLoopF fuel h0 lastKey
        | t :: ts =>
          t :: smartLoopF fuel
            (if ts.isEmpty then h0 else pushHeap h0 { b0 with tracks := ts })
            (some b0.key)

/-- `Queue.smartShuffle` from the source: a no-op on lists of length ≤ 1;
otherwise group by trimmed, case-folded author, shuffle each bucket, feed
all buckets into the max-heap and run the emission loop. -/
def Queue.smartShuffle (q : Queue) (rand : Nat → Nat → Nat) : Queue :=
  if q.tracks.length ≤ 1 then q
  else
    let buckets := shuffleBuckets rand 0 (groupByAuthor q.tracks)
    let heap := buckets.foldl pushHeap []
    { q with tracks := smartLoopF (2 * heapTracksTotal heap + heap.length + 1)
                         heap Option.none }

/-! ## Player: voice handshake, operations, destruction -/

/-- A `VOICE_SERVER_UPDATE` payload (endpoint may be null during region
migration). -/
structure VoiceServerUpdate where
  token : String
  guildId : String
  endpoint : Option String
  deriving DecidableEq, Repr

/-- A `VOICE_STATE_UPDATE` payload (`channel_id == null` means the bot left
voice). -/
structure VoiceStateUpdate where
  guildId : String
  userId : String
  sessionId : String
  channelId : Option String
  deriving DecidableEq, Repr

/-- The voice payload of the `update_player` REST call (`VoiceState` in the
source). -/
structure VoicePayload where
  token : String
  endpoint : String
  sessionId : String
  deriving DecidableEq, Repr

/-- Error codes of the source `RiasErrorCode` enum. -/
inductive RiasErrorCode where
  | nodeNotConnected
  | nodeNotReady
  | noAvailableNodes
  | playerNotFound
  | noTrackPlaying
  | invalidVolume
  | invalidPosition
  | invalidChannel
  | trackLoadFailed
  | timeout
  | webSocketError
  | restError
  deriving DecidableEq, Repr

/-- `ValidationUtils.isValidVolume`: integer in `[0, 1000]`. -/
def isValidVolume (v : Int) : Bool := 0 ≤ v && v ≤ 1000

/-- `ValidationUtils.isValidPosition`: non-negative integer. -/
def isValidPosition (p : Int) : Bool := 0 ≤ p

/-- `ValidationUtils.isValidChannelId`: a 17–20 digit string. -/
def isValidChannelId (s : String) : Bool :=
  17 ≤ s.length && s.length ≤ 20 && s.toList.all Char.isDigit

/-- `ValidationUtils.isValidGuildId`: a 17–20 digit string. -/
def isValidGuildId (s : String) : Bool :=
  17 ≤ s.length && s.length ≤ 20 && s.toList.all Char.isDigit

/-- Mutable fields of the source `Player` class. -/
structure PlayerState where
  track : Option Track
  voiceChannel : Option String
  textChannel : Option String
  volume : Int
  paused : Bool
  playing : Bool
  position : Int
  connected : Bool
  queue : Queue
  autoplay : Bool
  voiceServer : Option VoiceServerUpdate
  voiceState : Option VoiceStateUpdate
  destroyed : Bool
  deriving DecidableEq, Repr

/-- `Player.attemptConnection` from the source: when not destroyed, both a
pending voice server and a pending voice state are stored, and the server's
endpoint is truthy (present and non-empty), PATCH the voice payload
`{token, endpoint, sessionId}` to the node; `updateOk` models the REST
outcome — on success `connected` becomes true, on failure the error is
emitted and the state is unchanged.  Returns the new state and the voice
call issued, if any. -/
def Player.attemptConnection (p : PlayerState) (updateOk : Bool) :
    PlayerState × Option VoicePayload :=
  if p.destroyed then (p, Option.none)
  else
    match p.voiceServer, p.voiceState with
    | some vs, some vst =>
      if optStrTruthy vs.endpoint then
        let call : VoicePayload :=
          { token := vs.token, endpoint := vs.endpoint.getD "",
            sessionId := vst.sessionId }
        (if updateOk then { p with connected := true } else p, some call)
      else (p, Option.none)
    | _, _ => (p, Option.none)

/-- `Player.voiceServerUpdate` from the source: ignored when destroyed;
otherwise store the update as the pending voice server and re-attempt the
voice connection. -/
def Player.voiceServerUpdate (p : PlayerState) (u : VoiceServerUpdate)
    (updateOk : Bool) : PlayerState × Option VoicePayload :=
  if p.destroyed then (p, Option.none)
  else Player.attemptConnection { p with voiceServer := some u } updateOk

/-- `Player.voiceStateUpdate` from the source: ignored when destroyed; with
a truthy `channel_id` store the channel and the update and re-attempt the
connection; otherwise (null or empty channel) clear `voiceChannel` and drop
`connected`. -/
def Player.voiceStateUpdate (p : PlayerState) (u : VoiceStateUpdate)
    (updateOk : Bool) : PlayerState × Option VoicePayload :=
  if p.destroyed then (p, Option.none)
  else if optStrTruthy u.channelId then
    Player.attemptConnection
      { p with voiceChannel := u.channelId, voiceState := some u } updateOk
  else
    ({ p with voiceChannel := Option.none, connected := false }, Option.none)

/-- `Player.destroy` from the source: a second call returns immediately;
otherwise latch `destroyed`, call the node's `destroyPlayer` swallowing any
REST error (`restFails` models the outcome and is deliberately ignored),
emit `destroy`, and clear track, queue, flags and pending voice data.
Returns the new state and whether the `destroy` event was emitted. -/
def Player.destroy (p : PlayerState) (restFails : Bool) : PlayerState × Bool :=
  if p.destroyed then (p, false)
  else
    let p1 : PlayerState := { p with destroyed := true }
    let _ := restFails
    ({ p1 with
        track := Option.none
        queue := { p1.queue with tracks := [] }
        playing := false
        paused := false
        connected := false
        voiceServer := Option.none
        voiceState := Option.none }, true)

/-- Guarded player operations (the source's public methods that begin with
`checkDestroyed`). -/
inductive PlayerOp where
  | connect (channelId : String) (mute deaf : Option Bool)
  | play (encodedTrack : String) (position endTime volume : Option Int)
      (paused : Option Bool) (noReplace : Bool)
  | stop
  | pause (state : Bool)
  | seek (position : Int)
  | setVolume (volume : Int)
  | setFilters
  | clearFilters
  | addTrack (t : Track)
  | addTracks (ts : List Track)
  | removeTrack (i : Nat)
  | clearQueue
  | shuffleQueue
  | smartShuffleQueue
  | skip
  | setLoop (m : LoopMode)
  deriving DecidableEq, Repr

/-- Whether an optional argument is present but fails its validator. -/
def optInvalid (check : Int → Bool) : Option Int → Bool
  | Option.none => false
  | some v => !(check v)

/-- One guarded `Player` operation (state effects and the error raised, if
any; event emissions and REST payloads are not tracked here).  `nodeReady`
models `this.node.isReady`, `restOk` the outcome of the REST call the
operation performs, `rand`/`rand2` the random draws of the shuffle
operations.  Every operation first runs `checkDestroyed`, which raises
`PLAYER_NOT_FOUND` on a destroyed player. -/
def Player.runOp (p : PlayerState) (op : PlayerOp) (nodeReady restOk : Bool)
    (rand : Nat → Nat) (rand2 : Nat → Nat → Nat) :
    PlayerState × Option RiasErrorCode :=
  if p.destroyed then (p, some RiasErrorCode.playerNotFound)
  else
    match op with
    | PlayerOp.connect ch _mute _deaf =>
      if !(isValidChannelId ch) then (p, some RiasErrorCode.invalidChannel)
      else ({ p with voiceChannel := some ch }, Option.none)
    | PlayerOp.play _enc pos endT vol pst _nr =>
      if !nodeReady then (p, some RiasErrorCode.nodeNotReady)
      else if optInvalid isValidPosition pos then (p, some RiasErrorCode.invalidPosition)
      else if optInvalid isValidPosition endT then (p, some RiasErrorCode.invalidPosition)
      else if optInvalid isValidVolume vol then (p, some RiasErrorCode.invalidVolume)
      else
        let p1 : PlayerState :=
          { p with volume := vol.getD p.volume, paused := pst.getD p.paused }
        if restOk then ({ p1 with playing := true }, Option.none)
        else (p1, some RiasErrorCode.restError)
    | PlayerOp.stop =>
      if !nodeReady then (p, some RiasErrorCode.nodeNotReady)
      else if restOk then
        ({ p with track := Option.none, playing := false }, Option.none)
      else (p, some RiasErrorCode.restError)
    | PlayerOp.pause st =>
      if !nodeReady then (p, some RiasErrorCode.nodeNotReady)
      else if restOk then ({ p with paused := st }, Option.none)
      else (p, some RiasErrorCode.restError)
    | PlayerOp.seek pos =>
      if !nodeReady then (p, some RiasErrorCode.nodeNotReady)
      else
        match p.track with
        | Option.none => (p, some RiasErrorCode.noTrackPlaying)
        | some t =>
          if !(isValidPosition pos) then (p, some RiasErrorCode.invalidPosition)
          else if !t.info.isSeekable then (p, some RiasErrorCode.invalidPosition)
          else if restOk then ({ p with position := pos }, Option.none)
          else (p, some RiasErrorCode.restError)
    | PlayerOp.setVolume v =>
      if !nodeReady then (p, some RiasErrorCode.nodeNotReady)
      else if !(isValidVolume v) then (p, some RiasErrorCode.invalidVolume)
      else if restOk then ({ p with volume := v }, Option.none)
      else (p, some RiasErrorCode.restError)
    | PlayerOp.setFilters =>
      if !nodeReady then (p, some RiasErrorCode.nodeNotReady)
      else if restOk then (p, Option.none)
      else (p, some RiasErrorCode.restError)
    | PlayerOp.clearFilters =>
      if !nodeReady then (p, some RiasErrorCode.nodeNotReady)
      else if restOk then (p, Option.none)
      else (p, some RiasErrorCode.restError)
    | PlayerOp.addTrack t =>
      ({ p with queue := { p.queue with tracks := p.queue.tracks ++ [t] } },
       Option.none)
    | PlayerOp.addTracks ts =>
      ({ p with queue := { p.queue with tracks := p.queue.tracks ++ ts } },
       Option.none)
    | PlayerOp.removeTrack i =>
      if i < p.queue.tracks.length then
        ({ p with queue := { p.queue with tracks := p.queue.tracks.eraseIdx i } },
         Option.none)
      else (p, Option.none)
    | PlayerOp.clearQueue =>
      ({ p with queue := { p.queue with tracks := [] } }, Option.none)
    | PlayerOp.shuffleQueue =>
      ({ p with queue := p.queue.fyShuffle rand }, Option.none)
    | PlayerOp.smartShuffleQueue =>
      ({ p with queue := p.queue.smartShuffle rand2 }, Option.none)
    | PlayerOp.skip =>
      if p.queue.tracks.isEmpty then
        if !nodeReady then (p, some RiasErrorCode.nodeNotReady)
        else if restOk then
          ({ p with track := Option.none, playing := false }, Option.none)
        else (p, some RiasErrorCode.restError)
      else
        let polled := p.queue.poll
        match polled.1 with
        | Option.none => ({ p with queue := polled.2 }, Option.none)
        | some _ =>
          if !nodeReady then
            ({ p with queue := polled.2 }, some RiasErrorCode.nodeNotReady)
          else if restOk then
            ({ p with queue := polled.2, playing := true }, Option.none)
          else ({ p with queue := polled.2 }, some RiasErrorCode.restError)
    | PlayerOp.setLoop m =>
      ({ p with queue := { p.queue with loopMode := m } }, Option.none)

/-- Remove a guild's entry from the cluster's player registry
(`this.players.delete(guildId)`). -/
def removePlayerEntry (reg : List (String × PlayerState)) (gid : String) :
    List (String × PlayerState) :=
  reg.filter (fun e => !(e.1 == gid))

/-- The cluster-side effect of destroying a player: `Rias.create` registers a
`once("destroy")` handler that deletes the registry entry, so a destroy that
emits its event removes the record; a repeat destroy emits nothing and
leaves the registry unchanged. -/
def destroyPlayerCascade (reg : List (String × PlayerState)) (gid : String)
    (restFails : Bool) : List (String × PlayerState) :=
  match reg.lookup gid with
  | Option.none => reg
  | some p =>
    if (Player.destroy p restFails).2 then removePlayerEntry reg gid
    else reg

/-! ## Cluster: node selection -/

/-- CPU statistics of a node (`CpuStats`). -/
structure CpuStats where
  cores : ℚ
  systemLoad : ℚ
  lavalinkLoad : ℚ
  deriving DecidableEq, Repr

/-- Node statistics used by the selection strategies (`NodeStats`). -/
structure NodeStats where
  players : ℚ
  playingPlayers : ℚ
  cpu : CpuStats
  deriving DecidableEq, Repr

/-- One registered node as the selection code sees it. -/
structure NodeSnapshot where
  id : String
  region : Option String
  priority : Int
  connected : Bool
  sessionId : Option String
  stats : NodeStats
  deriving DecidableEq, Repr

/-- `isReady` of a registered node. -/
def NodeSnapshot.isReady (n : NodeSnapshot) : Bool :=
  n.connected && n.sessionId.isSome

/-- The load-balanced sort key:
`cpu.lavalinkLoad * (1 + players * 0.1)`. -/
def lbKey (n : NodeSnapshot) : ℚ :=
  n.stats.cpu.lavalinkLoad * (1 + n.stats.players * (1 / 10))

/-- Node selection strategies (source enum `NodeSelectionStrategy`). -/
inductive SelectionStrategy where
  | loadBalanced
  | regional
  | leastPlayers
  | leastLoad
  | priority
  deriving DecidableEq, Repr

/-- `selectLoadBalancedNode`: sort ascending by the combined load key and
take the first. -/
def selectLoadBalanced (ns : List NodeSnapshot) : Option NodeSnapshot :=
  (ns.mergeSort (fun a b => decide (lbKey a ≤ lbKey b))).head?

/-- `selectLeastPlayersNode`: sort ascending by `stats.players`. -/
def selectLeastPlayers (ns : List NodeSnapshot) : Option NodeSnapshot :=
  (ns.mergeSort (fun a b => decide (a.stats.players ≤ b.stats.players))).head?

/-- `selectLeastLoadNode`: sort ascending by `stats.cpu.lavalinkLoad`. -/
def selectLeastLoad (ns : List NodeSnapshot) : Option NodeSnapshot :=
  (ns.mergeSort (fun a b =>
    decide (a.stats.cpu.lavalinkLoad ≤ b.stats.cpu.lavalinkLoad))).head?

/-- `selectPriorityNode`: sort ascending by `priority` (lower wins). -/
def selectPriority (ns : List NodeSnapshot) : Option NodeSnapshot :=
  (ns.mergeSort (fun a b => decide (a.priority ≤ b.priority))).head?

/-- `selectRegionalNode`: with no truthy requested region fall back to
load-balanced; otherwise filter to nodes of that region, falling back to
load-balanced over all passed nodes when none match. -/
def selectRegional (ns : List NodeSnapshot) (region : Option String) :
    Option NodeSnapshot :=
  if !(optStrTruthy region) then selectLoadBalanced ns
  else
    let regionalNodes := ns.filter (fun n => n.region == region)
    if regionalNodes.isEmpty then selectLoadBalanced ns
    else selectLoadBalanced regionalNodes

/-- The eligible set of `Rias.getOptimalNode`: registered nodes with
`connected && isReady`, in registry iteration order. -/
def eligibleNodes (nodes : List NodeSnapshot) : List NodeSnapshot :=
  nodes.filter (fun n => n.connected && n.isReady)

/-- `Rias.getOptimalNode`: filter to eligible nodes
(`connected && isReady`); none → no node; exactly one → that node, without
sorting; otherwise dispatch on the configured strategy. -/
def getOptimalNode (strategy : SelectionStrategy) (nodes : List NodeSnapshot)
    (region : Option String) : Option NodeSnapshot :=
  if (eligibleNodes nodes).length = 0 then Option.none
  else if (eligibleNodes nodes).length = 1 then (eligibleNodes nodes).head?
  else
    match strategy with
    | SelectionStrategy.regional => selectRegional (eligibleNodes nodes) region
    | SelectionStrategy.leastPlayers => selectLeastPlayers (eligibleNodes nodes)
    | SelectionStrategy.leastLoad => selectLeastLoad (eligibleNodes nodes)
    | SelectionStrategy.priority => selectPriority (eligibleNodes nodes)
    | SelectionStrategy.loadBalanced => selectLoadBalanced (eligibleNodes nodes)

/-- The caller-side check (`Rias.create` and friends): a missing optimal
node becomes a `NO_AVAILABLE_NODES` error. -/
def selectNodeOrError (strategy : SelectionStrategy) (nodes : List NodeSnapshot)
    (region : Option String) : Except RiasErrorCode NodeSnapshot :=
  match getOptimalNode strategy nodes region with
  | Option.none => Except.error RiasErrorCode.noAvailableNodes
  | some n => Except.ok n

/-! ## Concrete states for counterexamples and witnesses -/

/-- A freshly constructed player (the source field initialisers). -/
def playerBase : PlayerState :=
  { track := Option.none, voiceChannel := Option.none,
    textChannel := Option.none, volume := 100, paused := false,
    playing := false, position := 0, connected := false,
    queue := { tracks := [], current := Option.none, previous := Option.none,
               loopMode := LoopMode.none },
    autoplay := true, voiceServer := Option.none, voiceState := Option.none,
    destroyed := false }

/-- A voice state update placing the bot in a channel. -/
def vstEx : VoiceStateUpdate :=
  { guildId := "123456789012345678", userId := "987654321098765432",
    sessionId := "voice-session", channelId := some "111111111111111111" }

/-- A voice state update with a null channel (the bot left voice). -/
def vstNullChannel : VoiceStateUpdate :=
  { guildId := "123456789012345678", userId := "987654321098765432",
    sessionId := "voice-session", channelId := Option.none }

/-- A voice server update whose endpoint is non-null but empty. -/
def vsuEmptyEndpoint : VoiceServerUpdate :=
  { token := "tok", guildId := "123456789012345678", endpoint := some "" }

/-- A voice server update with a truthy endpoint. -/
def vsuGoodEndpoint : VoiceServerUpdate :=
  { token := "tok", guildId := "123456789012345678",
    endpoint := some "us-west.example" }

/-- A player that has stored a pending voice state. -/
def playerWithState : PlayerState := { playerBase with voiceState := some vstEx }

/-- `playerWithState` after a null-channel voice state update. -/
def playerLeft : PlayerState :=
  (Player.voiceStateUpdate playerWithState vstNullChannel true).1

/-- Concrete node statistics for witnesses. -/
def statsEx (players load : ℚ) : NodeStats :=
  { players := players, playingPlayers := 0,
    cpu := { cores := 4, systemLoad := 0, lavalinkLoad := load } }

/-- A ready node in region `us`. -/
def nodeSnapA : NodeSnapshot :=
  { id := "a", region := some "us", priority := 1, connected := true,
    sessionId := some "sa", stats := statsEx 10 (1/2) }

/-- A ready node in region `eu` with fewer players and less load. -/
def nodeSnapB : NodeSnapshot :=
  { id := "b", region := some "eu", priority := 0, connected := true,
    sessionId := some "sb", stats := statsEx 2 (1/4) }

/-- A disconnected node. -/
def nodeSnapOff : NodeSnapshot := { nodeSnapA with connected := false }

/-- A five-track queue whose dominant author (`"a"` after trimming and
case-folding) occurs exactly `⌈5/2⌉ = 3` times. -/
def qSmartEx : Queue :=
  { tracks := [sampleTrack "1" "A", sampleTrack "2" "a ", sampleTrack "3" "b",
               sampleTrack "4" "A", sampleTrack "5" "c"],
    current := Option.none, previous := Option.none, loopMode := LoopMode.none }

/-- A single-track queue: smart shuffle must be a no-op on it. -/
def qSmartOne : Queue :=
  { tracks := [sampleTrack "1" "A"], current := Option.none,
    previous := Option.none, loopMode := LoopMode.none }

/-- A degenerate random source for witnesses. -/
def randZero : Nat → Nat → Nat := fun _ _ => 0

/-! ## Claim theorems -/

lemma Queue.poll_of_trackLoop (q : Queue) (hm : q.loopMode = LoopMode.track)
    (hc : q.current.isSome) : q.poll = (q.current, q) := by
  simp [Queue.poll, hm, hc]

lemma Queue.pollIter_of_trackLoop (q : Queue) (hm : q.loopMode = LoopMode.track)
    (hc : q.current.isSome) : ∀ n, q.pollIter n = q := by
  intro n
  induction n with
  | zero => rfl
  | succ n ih =>
    have h := Queue.poll_of_trackLoop q hm hc
    simp only [Queue.pollIter, h]
    exact ih

/-- **C3.** `Queue.poll`: under `LoopMode.Track` with a current track, poll
returns `current` and mutates nothing for unboundedly many consecutive calls;
otherwise it moves `current` to `previous`, shifts the head of the track list
into `current` (appending the old `current` to the tail under
`LoopMode.Queue` when both old and new `current` exist) and returns the new
`current`; and under `LoopMode.Queue` every poll returning a track preserves
the multiset of queued tracks plus `current`. -/
theorem claim_C3_queue_poll (q : Queue) :
    (q.loopMode = LoopMode.track → q.current.isSome →
      (∀ n, q.pollIter n = q) ∧ (q.poll).1 = q.current ∧ (q.poll).2 = q)
  ∧ (¬ (q.loopMode = LoopMode.track ∧ q.current.isSome) →
      (q.poll).2.previous = q.current
      ∧ (q.poll).2.current = q.tracks.head?
      ∧ (q.poll).1 = q.tracks.head?
      ∧ (q.poll).2.tracks =
          (if q.loopMode = LoopMode.queue ∧ (q.tracks.head?).isSome
              ∧ q.current.isSome
           then q.tracks.tail ++ q.current.toList
           else q.tracks.tail))
  ∧ (q.loopMode = LoopMode.queue → ((q.poll).1).isSome →
      (q.poll).2.heldTracks = q.heldTracks) := by
  refine ⟨?_, ?_, ?_⟩
  · intro hm hc
    exact ⟨Queue.pollIter_of_trackLoop q hm hc,
      by simp [Queue.poll_of_trackLoop q hm hc],
      by simp [Queue.poll_of_trackLoop q hm hc]⟩
  · intro hnot
    cases hm : q.loopMode <;> cases hcur : q.current <;> cases htr : q.tracks <;>
      simp_all [Queue.poll, Option.toList]
  · intro hm hs
    have hnot : ¬ (q.loopMode = LoopMode.track ∧ q.current.isSome) := by
      simp [hm]
    simp only [Queue.poll, if_neg hnot] at hs ⊢
    cases htr : q.tracks with
    | nil => simp [htr] at hs
    | cons t ts =>
      cases hcur : q.current with
      | none =>
        simp only [Queue.heldTracks, hm, htr, hcur, List.head?, List.tail,
          Option.toList]
        simp only [← Multiset.coe_singleton, Multiset.coe_add,
          Multiset.coe_nil, add_zero]
        exact Multiset.coe_eq_coe.2 (List.perm_append_singleton t ts)
      | some c =>
        simp only [Queue.heldTracks, hm, htr, hcur, List.head?, List.tail,
          Option.toList]
        simp only [← Multiset.coe_singleton, Multiset.coe_add]
        exact Multiset.coe_eq_coe.2 (List.perm_append_singleton t (ts ++ [c]))

/-- Witness for C3 at concrete queues: a track-looping queue is unchanged by
three polls, and a queue-looping poll preserves the held multiset. -/
theorem claim_C3_queue_poll_witness :
    qTrackEx.pollIter 3 = qTrackEx
    ∧ (qQueueEx.poll).2.heldTracks = qQueueEx.heldTracks := by
  constructor
  · exact ((claim_C3_queue_poll qTrackEx).1 rfl rfl).1 3
  · exact (claim_C3_queue_poll qQueueEx).2.2 rfl (by decide)

/-- **C10.** `Queue.toggleLoop` maps `None` to `Queue` and every other mode
(`Track` included) to `None`, returns the new mode, and leaves the track
list, `current` and `previous` unchanged. -/
theorem claim_C10_toggleLoop (q : Queue) :
    ((q.toggleLoop).1 = (q.toggleLoop).2.loopMode)
  ∧ (q.loopMode = LoopMode.none → (q.toggleLoop).1 = LoopMode.queue)
  ∧ (q.loopMode ≠ LoopMode.none → (q.toggleLoop).1 = LoopMode.none)
  ∧ (q.loopMode = LoopMode.track → (q.toggleLoop).1 = LoopMode.none)
  ∧ (q.toggleLoop).2.tracks = q.tracks
  ∧ (q.toggleLoop).2.current = q.current
  ∧ (q.toggleLoop).2.previous = q.previous := by
  refine ⟨rfl, fun h => by simp [Queue.toggleLoop, h], fun h => by
    simp [Queue.toggleLoop, h], fun h => by simp [Queue.toggleLoop, h],
    rfl, rfl, rfl⟩

/-- Witness for C10: toggling a track-looping queue yields `None`. -/
theorem claim_C10_toggleLoop_witness :
    (({ tracks := [], current := Option.none, previous := Option.none,
        loopMode := LoopMode.track } : Queue).toggleLoop).1 = LoopMode.none := by
  exact (claim_C10_toggleLoop _).2.2.1 (by decide)

/-! ## Node: connection lifecycle and REST guards -/

/-- **C1 counterexample.** The claim says every REST operation fails with
`NodeNotReady` (no network I/O) whenever `is_ready` is false.  But with
`connected = false` and a session id present, `updatePlayer` passes its
guard and performs the PATCH; and with `connected = true` and no session id,
`loadTracks` passes its guard and performs the GET. -/
theorem claim_C1_counterexample :
    Node.isReady nodeHalfReadyA = false
  ∧ issuesRequest (Node.updatePlayerReq nodeHalfReadyA "123456789012345678" false) = true
  ∧ Node.isReady nodeHalfReadyB = false
  ∧ issuesRequest (Node.loadTracksReq nodeHalfReadyB "query") = true := by
  decide

/-- **C1 (amended).** Each REST operation guards only one half of readiness:
`updatePlayer` and `destroyPlayer` fail before any network I/O exactly when
the session id is null or empty (regardless of `connected`), while
`loadTracks`, `decodeTrack`, `decodeTracks`, `getInfo` and `pluginRequest`
fail before any network I/O exactly when `connected` is false (regardless of
the session id); in the passing case `pluginRequest` can still fail on a
cached plugin miss, but never with the not-connected error. -/
theorem claim_C1_amended_rest_guards (s : NodeState)
    (g ident enc pname ep : String) (nr force cacheValid : Bool)
    (encs : List String) (cache : List String) :
    (optStrTruthy s.sessionId = false →
        Node.updatePlayerReq s g nr = Except.error NodeGuardError.notReady
      ∧ Node.destroyPlayerReq s g = Except.error NodeGuardError.notReady)
  ∧ (optStrTruthy s.sessionId = true →
        issuesRequest (Node.updatePlayerReq s g nr) = true
      ∧ issuesRequest (Node.destroyPlayerReq s g) = true)
  ∧ (s.connected = false →
        Node.loadTracksReq s ident = Except.error NodeGuardError.notConnected
      ∧ Node.decodeTrackReq s enc = Except.error NodeGuardError.notConnected
      ∧ Node.decodeTracksReq s encs = Except.error NodeGuardError.notConnected
      ∧ Node.getInfoPlan s force cacheValid = Except.error NodeGuardError.notConnected
      ∧ Node.pluginRequestPlan s cache cacheValid pname ep
          = Except.error NodeGuardError.notConnected)
  ∧ (s.connected = true →
        issuesRequest (Node.loadTracksReq s ident) = true
      ∧ issuesRequest (Node.decodeTrackReq s enc) = true
      ∧ issuesRequest (Node.decodeTracksReq s encs) = true
      ∧ (Node.getInfoPlan s force cacheValid).isOk = true
      ∧ Node.pluginRequestPlan s cache cacheValid pname ep
          ≠ Except.error NodeGuardError.notConnected) := by
  refine ⟨fun h => ?_, fun h => ?_, fun h => ?_, fun h => ?_⟩
  · simp [Node.updatePlayerReq, Node.destroyPlayerReq, h]
  · simp [Node.updatePlayerReq, Node.destroyPlayerReq, h, issuesRequest]
  · simp [Node.loadTracksReq, Node.decodeTrackReq, Node.decodeTracksReq,
      Node.getInfoPlan, Node.pluginRequestPlan, h]
  · refine ⟨?_, ?_, ?_, ?_, ?_⟩ <;>
      simp only [Node.loadTracksReq, Node.decodeTrackReq, Node.decodeTracksReq,
        Node.getInfoPlan, Node.pluginRequestPlan, h, Bool.not_true,
        Bool.false_eq_true, if_false, Bool.ite_eq_true_distrib]
    · rfl
    · rfl
    · rfl
    · cases force <;> cases cacheValid <;> rfl
    · by_cases hce : cache.isEmpty <;> by_cases hcv : cacheValid <;>
        by_cases hm : pname ∈ cache <;> simp [hce, hcv, hm]

/-- Witness for the amended C1 at concrete states: a node with a session id
issues the player PATCH even while disconnected, and a connected node
without a session id issues the load GET; a fully "not ready" node with no
truthy session id is refused the PATCH. -/
theorem claim_C1_amended_rest_guards_witness :
    (Node.updatePlayerReq nodeBase "g" false = Except.error NodeGuardError.notReady)
  ∧ issuesRequest (Node.updatePlayerReq nodeHalfReadyA "g" false) = true
  ∧ issuesRequest (Node.loadTracksReq nodeHalfReadyB "q") = true := by
  refine ⟨((claim_C1_amended_rest_guards nodeBase "g" "q" "e" "p" "ep" false
      false false [] []).1 (by decide)).1, ?_, ?_⟩
  · exact ((claim_C1_amended_rest_guards nodeHalfReadyA "g" "q" "e" "p" "ep"
      false false false [] []).2.1 (by decide)).1
  · exact ((claim_C1_amended_rest_guards nodeHalfReadyB "g" "q" "e" "p" "ep"
      false false false [] []).2.2.2 (by decide)).1

/-- **C2 counterexample.** The claim says a close with code 1000 forgets
`session_id` only when no resume key is configured.  But `onClose` clears
the session id on code 1000 even with a resume key configured. -/
theorem claim_C2_counterexample :
    optStrTruthy nodeWithResume.resumeKey = true
  ∧ nodeWithResume.sessionId = some "S"
  ∧ (Node.onClose nodeWithResume 1000 0).sessionId = Option.none := by
  decide

/-- **C2 (amended).** On close code 1000 the node transitions to
`Disconnected` (when not already reconnecting) and always forgets
`session_id`, resume key or not; for codes other than 1000 the session id is
retained exactly when a truthy resume key is configured.  `disconnect()` on
a live socket sends close code 1000, cancels any pending reconnect timer,
and leaves `session_id` set afterwards exactly when a (truthy) resume key
is configured. -/
theorem claim_C2_amended_close_session (s : NodeState) (code : Nat) (jitter : ℚ) :
    ((Node.onClose s 1000 jitter).sessionId = Option.none)
  ∧ (s.connectionState ≠ ConnectionState.reconnecting →
      (Node.onClose s 1000 jitter).connectionState = ConnectionState.disconnected)
  ∧ (code ≠ 1000 → optStrTruthy s.resumeKey = true →
      (Node.onClose s code jitter).sessionId = s.sessionId)
  ∧ (s.ws = true →
      (Node.disconnect s).2 = some 1000
    ∧ (Node.disconnect s).1.reconnectTimerPending = false
    ∧ (Node.disconnect s).1.sessionId
        = (if optStrTruthy s.resumeKey then s.sessionId else Option.none)) := by
  refine ⟨?_, fun hcs => ?_, fun hc hr => ?_, fun hws => ?_⟩
  · by_cases h : optStrTruthy s.resumeKey <;>
      by_cases hcs : s.connectionState = ConnectionState.reconnecting <;>
      simp [Node.onClose, h, hcs]
  · by_cases h : optStrTruthy s.resumeKey <;> simp [Node.onClose, h, hcs]
  · have hbeq : (code == 1000) = false := by
      simp [hc]
    by_cases hcs : s.connectionState = ConnectionState.reconnecting <;>
      by_cases hatt : s.reconnectAttempts < s.maxReconnectAttempts <;>
      by_cases hcid : optStrTruthy s.clientId <;>
      simp [Node.onClose, Node.scheduleReconnect, hr, hbeq, hc, hcs, hatt, hcid]
  · by_cases h : optStrTruthy s.resumeKey <;>
      simp [Node.disconnect, hws, h]

/-- Witness for the amended C2 at concrete states: closing `nodeWithResume`
with code 1006 keeps its session id, and `disconnect()` keeps it too. -/
theorem claim_C2_amended_close_session_witness :
    (Node.onClose nodeWithResume 1006 0).sessionId = some "S"
  ∧ (Node.disconnect nodeWithResume).1.sessionId = some "S" := by
  constructor
  · exact (claim_C2_amended_close_session nodeWithResume 1006 0).2.2.1
      (by decide) (by decide)
  · have h := (claim_C2_amended_close_session nodeWithResume 1006 0).2.2.2
      (by decide)
    rw [h.2.2]
    decide

/-- **C7.** With a client id available, reconnect attempt `k ≥ 1` (the
incremented attempt counter) schedules a delay of exactly
`min(reconnectDelay · 2^(k-1) + jitter, 30000)` ms; with base 1000 and
jitter in `[0, 1000)`, the delay lies in
`[min(2^(k-1)·1000, 30000), min(2^(k-1)·1000 + 1000, 30000)]`; and
`reconnectAttempts` resets to 0 on every successful socket open. -/
theorem claim_C7_reconnect_backoff (s : NodeState) (jitter : ℚ)
    (hr0 : 0 ≤ jitter) (hr1 : jitter < 1000)
    (hcid : optStrTruthy s.clientId = true) :
    (Node.scheduleReconnect s jitter).2
      = some (min (s.reconnectDelay * 2 ^ (s.reconnectAttempts + 1 - 1) + jitter) 30000)
  ∧ (Node.scheduleReconnect s jitter).1.reconnectAttempts = s.reconnectAttempts + 1
  ∧ (s.reconnectDelay = 1000 →
      min ((2 : ℚ) ^ s.reconnectAttempts * 1000) 30000
          ≤ ((Node.scheduleReconnect s jitter).2.getD 0)
    ∧ ((Node.scheduleReconnect s jitter).2.getD 0)
          ≤ min ((2 : ℚ) ^ s.reconnectAttempts * 1000 + 1000) 30000)
  ∧ (Node.onOpen s).reconnectAttempts = 0 := by
  refine ⟨?_, ?_, fun hbase => ?_, rfl⟩
  · simp [Node.scheduleReconnect, hcid]
  · simp [Node.scheduleReconnect, hcid]
  · have hdelay : (Node.scheduleReconnect s jitter).2.getD 0
        = min (s.reconnectDelay * 2 ^ s.reconnectAttempts + jitter) 30000 := by
      simp [Node.scheduleReconnect, hcid]
    rw [hdelay, hbase]
    constructor
    · refine min_le_min ?_ le_rfl
      have : (2 : ℚ) ^ s.reconnectAttempts * 1000
          ≤ 1000 * 2 ^ s.reconnectAttempts + jitter := by linarith [mul_comm ((2 : ℚ) ^ s.reconnectAttempts) 1000]
      exact this
    · refine min_le_min ?_ le_rfl
      have : (1000 : ℚ) * 2 ^ s.reconnectAttempts + jitter
          ≤ 2 ^ s.reconnectAttempts * 1000 + 1000 := by
        have := mul_comm ((2 : ℚ) ^ s.reconnectAttempts) 1000
        linarith
      exact this

/-- Witness for C7 at a concrete state: second reconnect attempt with base
1000 and jitter 1/2. -/
theorem claim_C7_reconnect_backoff_witness :
    ((Node.scheduleReconnect nodeBackoffEx (1/2)).2
      = some (min ((1000 : ℚ) * 2 ^ 1 + 1/2) 30000))
  ∧ (Node.onOpen nodeBase).reconnectAttempts = 0 := by
  have h := claim_C7_reconnect_backoff nodeBackoffEx (1/2)
    (by norm_num) (by norm_num) (by decide)
  exact ⟨h.1, (claim_C7_reconnect_backoff nodeBase (1/2) (by norm_num)
    (by norm_num) (by decide)).2.2.2⟩

/-- **C5 counterexample.** The claim says the voice REST call is issued iff
both inputs are pending and the endpoint is non-null.  But the source tests
endpoint *truthiness*: with a pending voice state and a server update whose
endpoint is the non-null empty string, no call is issued. -/
theorem claim_C5_counterexample :
    playerWithState.destroyed = false
  ∧ playerWithState.voiceState.isSome = true
  ∧ vsuEmptyEndpoint.endpoint ≠ Option.none
  ∧ (Player.voiceServerUpdate playerWithState vsuEmptyEndpoint true).2
      = Option.none := by
  decide

/-- **C5 (amended).** For a non-destroyed player, on each arrival of either
voice input the voice REST call is issued iff both a pending voice server
and a pending voice state are then present and the server's endpoint is
non-null **and non-empty** (truthy); on REST success `connected` becomes
true; and a voice state update with a null (or empty) channel id clears
`voice_channel`, sets `connected := false`, and issues no call. -/
theorem claim_C5_amended_voice_handshake (p : PlayerState)
    (su : VoiceServerUpdate) (vu : VoiceStateUpdate) (ok : Bool)
    (hd : p.destroyed = false) :
    (((Player.voiceServerUpdate p su ok).2).isSome
        ↔ (p.voiceState.isSome = true ∧ optStrTruthy su.endpoint = true))
  ∧ ((Player.voiceServerUpdate p su ok).1.voiceServer = some su)
  ∧ (ok = true → ((Player.voiceServerUpdate p su ok).2).isSome →
        (Player.voiceServerUpdate p su ok).1.connected = true)
  ∧ (optStrTruthy vu.channelId = true →
        ((((Player.voiceStateUpdate p vu ok).2).isSome
            ↔ (∃ vs, p.voiceServer = some vs ∧ optStrTruthy vs.endpoint = true))
          ∧ (Player.voiceStateUpdate p vu ok).1.voiceState = some vu
          ∧ (ok = true → ((Player.voiceStateUpdate p vu ok).2).isSome →
              (Player.voiceStateUpdate p vu ok).1.connected = true)))
  ∧ (optStrTruthy vu.channelId = false →
        (Player.voiceStateUpdate p vu ok)
          = ({ p with voiceChannel := Option.none, connected := false },
             Option.none)) := by
  refine ⟨?_, ?_, ?_, fun hch => ⟨?_, ?_, ?_⟩, fun hch => ?_⟩
  · cases hvs : p.voiceState <;>
      by_cases hep : optStrTruthy su.endpoint <;>
      cases ok <;>
      simp [Player.voiceServerUpdate, Player.attemptConnection, hd, hvs, hep]
  · cases hvs : p.voiceState <;>
      by_cases hep : optStrTruthy su.endpoint <;>
      cases ok <;>
      simp [Player.voiceServerUpdate, Player.attemptConnection, hd, hvs, hep]
  · intro hok
    subst hok
    cases hvs : p.voiceState <;>
      by_cases hep : optStrTruthy su.endpoint <;>
      simp [Player.voiceServerUpdate, Player.attemptConnection, hd, hvs, hep]
  · cases hvsrv : p.voiceServer with
    | none =>
      simp [Player.voiceStateUpdate, Player.attemptConnection, hd, hch, hvsrv]
    | some vs =>
      by_cases hep : optStrTruthy vs.endpoint <;>
        cases ok <;>
        simp [Player.voiceStateUpdate, Player.attemptConnection, hd, hch,
          hvsrv, hep]
  · cases hvsrv : p.voiceServer with
    | none =>
      simp [Player.voiceStateUpdate, Player.attemptConnection, hd, hch, hvsrv]
    | some vs =>
      by_cases hep : optStrTruthy vs.endpoint <;>
        cases ok <;>
        simp [Player.voiceStateUpdate, Player.attemptConnection, hd, hch,
          hvsrv, hep]
  · intro hok
    subst hok
    cases hvsrv : p.voiceServer with
    | none =>
      simp [Player.voiceStateUpdate, Player.attemptConnection, hd, hch, hvsrv]
    | some vs =>
      by_cases hep : optStrTruthy vs.endpoint <;>
        simp [Player.voiceStateUpdate, Player.attemptConnection, hd, hch,
          hvsrv, hep]
  · simp [Player.voiceStateUpdate, hd, hch]

/-- Witness for the amended C5: a server update with a truthy endpoint on a
player holding a pending voice state issues the call, and a null-channel
state update clears the channel. -/
theorem claim_C5_amended_voice_handshake_witness :
    ((Player.voiceServerUpdate playerWithState vsuGoodEndpoint true).2).isSome
      = true
  ∧ (Player.voiceStateUpdate playerWithState vstNullChannel true)
      = ({ playerWithState with
           voiceChannel := Option.none
           connected := false }, Option.none) := by
  constructor
  · exact ((claim_C5_amended_voice_handshake playerWithState vsuGoodEndpoint
      vstNullChannel true (by decide)).1).2 ⟨by decide, by decide⟩
  · exact (claim_C5_amended_voice_handshake playerWithState vsuGoodEndpoint
      vstNullChannel true (by decide)).2.2.2.2 (by decide)

/-- **C9 counterexample.** The claim says that, after a null-channel voice
state update, a single later voice server update with a non-null endpoint
suffices to issue the voice call.  But a non-null *empty* endpoint is falsy
in the source's check and no call is issued. -/
theorem claim_C9_counterexample :
    playerLeft.destroyed = false
  ∧ playerLeft.voiceState.isSome = true
  ∧ vsuEmptyEndpoint.endpoint ≠ Option.none
  ∧ (Player.voiceServerUpdate playerLeft vsuEmptyEndpoint true).2
      = Option.none := by
  decide

/-- **C9 (amended).** For a non-destroyed player, a voice state update with
`channel_id = null` sets `voiceChannel := none` and `connected := false` and
changes nothing else (the pending voice server and stored voice state are
retained); hence a single later voice server update with a non-null
**non-empty** endpoint issues the voice call carrying the previously stored
voice session id. -/
theorem claim_C9_null_channel_frame (p : PlayerState) (vu : VoiceStateUpdate)
    (su : VoiceServerUpdate) (ok ok2 : Bool)
    (hd : p.destroyed = false) (hch : vu.channelId = Option.none) :
    ((Player.voiceStateUpdate p vu ok).1
        = { p with voiceChannel := Option.none, connected := false })
  ∧ ((Player.voiceStateUpdate p vu ok).2 = Option.none)
  ∧ (∀ vst, p.voiceState = some vst → optStrTruthy su.endpoint = true →
      (Player.voiceServerUpdate ((Player.voiceStateUpdate p vu ok).1) su ok2).2
        = some { token := su.token, endpoint := su.endpoint.getD "",
                 sessionId := vst.sessionId }) := by
  have hch2 : optStrTruthy vu.channelId = false := by
    rw [hch]; rfl
  refine ⟨?_, ?_, ?_⟩
  · simp [Player.voiceStateUpdate, hd, hch2]
  · simp [Player.voiceStateUpdate, hd, hch2]
  · intro vst hvst hep
    simp [Player.voiceStateUpdate, hd, hch2, Player.voiceServerUpdate,
      Player.attemptConnection, hvst, hep]

/-- Witness for C9: after leaving voice, one good server update issues the
call with the stored voice session id. -/
theorem claim_C9_null_channel_frame_witness :
    (Player.voiceServerUpdate
        ((Player.voiceStateUpdate playerWithState vstNullChannel true).1)
        vsuGoodEndpoint true).2
      = some { token := "tok", endpoint := "us-west.example",
               sessionId := "voice-session" } := by
  exact (claim_C9_null_channel_frame playerWithState vstNullChannel
    vsuGoodEndpoint true true (by decide) (by decide)).2.2 vstEx (by decide)
    (by decide)

lemma lookup_removePlayerEntry (reg : List (String × PlayerState))
    (gid : String) : (removePlayerEntry reg gid).lookup gid = Option.none := by
  induction reg with
  | nil => rfl
  | cons e rest ih =>
    obtain ⟨k, v⟩ := e
    by_cases h : k = gid
    · have hbeq : (k == gid) = true := by
        simp [h]
      simp only [removePlayerEntry, List.filter_cons] at ih ⊢
      rw [hbeq]
      exact ih
    · have hbeq : (k == gid) = false := by
        simp [h]
      have hbeq2 : (gid == k) = false := by
        simp only [beq_eq_false_iff_ne, ne_eq]
        exact fun hh => h hh.symm
      simp only [removePlayerEntry, List.filter_cons] at ih ⊢
      rw [hbeq]
      simpa [List.lookup, hbeq2] using ih

/-- **C8.** `Player.destroy` is total (its result does not depend on the
REST outcome, which it swallows) and an idempotent latch (a second call
returns the same state and emits nothing); after a destroy, every guarded
player operation fails with `PLAYER_NOT_FOUND` and leaves the state
unchanged; and destroying a live registered player removes its record from
the cluster registry. -/
theorem claim_C8_destroy_total_latch (p : PlayerState) (e e2 : Bool)
    (reg : List (String × PlayerState)) (gid : String) :
    (Player.destroy p e = Player.destroy p e2)
  ∧ ((Player.destroy p e).1.destroyed = true)
  ∧ (Player.destroy (Player.destroy p e).1 e2 = ((Player.destroy p e).1, false))
  ∧ (∀ op nodeReady restOk rand rand2,
      Player.runOp (Player.destroy p e).1 op nodeReady restOk rand rand2
        = ((Player.destroy p e).1, some RiasErrorCode.playerNotFound))
  ∧ (∀ q, reg.lookup gid = some q → q.destroyed = false →
      (destroyPlayerCascade reg gid e).lookup gid = Option.none) := by
  have hdes : (Player.destroy p e).1.destroyed = true := by
    by_cases h : p.destroyed <;> simp [Player.destroy, h]
  refine ⟨rfl, hdes, ?_, ?_, ?_⟩
  · set X := (Player.destroy p e).1 with hX
    simp [Player.destroy, hdes, ← hX]
  · intro op nodeReady restOk rand rand2
    set X := (Player.destroy p e).1 with hX
    simp [Player.runOp, hdes, ← hX]
  · intro q hq hqd
    have hemit : (Player.destroy q e).2 = true := by
      simp [Player.destroy, hqd]
    simp only [destroyPlayerCascade, hq, hemit, if_true]
    exact lookup_removePlayerEntry reg gid

/-- Witness for C8 at a concrete player and registry. -/
theorem claim_C8_destroy_total_latch_witness :
    (Player.runOp (Player.destroy playerBase true).1 PlayerOp.stop true true
        id (fun _ i => i)
      = ((Player.destroy playerBase true).1, some RiasErrorCode.playerNotFound))
  ∧ (destroyPlayerCascade [("123456789012345678", playerBase)]
        "123456789012345678" false).lookup "123456789012345678"
      = Option.none := by
  constructor
  · exact (claim_C8_destroy_total_latch playerBase true true [] "g").2.2.2.1
      PlayerOp.stop true true id (fun _ i => i)
  · exact (claim_C8_destroy_total_latch playerBase false false
      [("123456789012345678", playerBase)] "123456789012345678").2.2.2.2
      playerBase (by decide) (by decide)

lemma head_mergeSort_key_min {α β : Type} [LinearOrder β] (key : α → β)
    (l : List α) (n : α)
    (h : (l.mergeSort (fun a b => decide (key a ≤ key b))).head? = some n) :
    n ∈ l ∧ ∀ m ∈ l, key n ≤ key m := by
  have hperm := List.mergeSort_perm l (fun a b => decide (key a ≤ key b))
  have hsorted := @List.sorted_mergeSort _
    (fun a b => decide (key a ≤ key b))
    (fun a b c hab hbc => by
      simp only [decide_eq_true_eq] at hab hbc ⊢
      exact le_trans hab hbc)
    (fun a b => by
      simpa using le_total (key a) (key b)) l
  cases hms : l.mergeSort (fun a b => decide (key a ≤ key b)) with
  | nil =>
    rw [hms] at h
    cases h
  | cons x rest =>
    rw [hms] at h hperm hsorted
    have hxn : x = n := by
      simpa using h
    subst hxn
    constructor
    · exact hperm.mem_iff.mp (List.mem_cons_self x rest)
    · intro m hm
      rcases List.mem_cons.mp (hperm.symm.mem_iff.mp hm) with h1 | h2
      · rw [h1]
      · have := (List.pairwise_cons.mp hsorted).1 m h2
        simpa using this

lemma mergeSort_head_isSome {α : Type} (le : α → α → Bool) (l : List α)
    (h : l ≠ []) : ((l.mergeSort le).head?).isSome = true := by
  have hlen := (List.mergeSort_perm l le).length_eq
  cases hms : l.mergeSort le with
  | nil =>
    rw [hms] at hlen
    cases hl : l with
    | nil => exact absurd hl h
    | cons a as => rw [hl] at hlen; simp at hlen
  | cons x rest => simp

lemma selectLoadBalanced_isSome (ns : List NodeSnapshot) (h : ns ≠ []) :
    ((selectLoadBalanced ns).isSome) = true :=
  mergeSort_head_isSome _ ns h

lemma selectLoadBalanced_min (ns : List NodeSnapshot) (n : NodeSnapshot)
    (h : selectLoadBalanced ns = some n) :
    n ∈ ns ∧ ∀ m ∈ ns, lbKey n ≤ lbKey m := by
  have h2 : (ns.mergeSort (fun a b => decide (lbKey a ≤ lbKey b))).head?
      = some n := h
  exact head_mergeSort_key_min lbKey ns n h2

lemma selectLeastPlayers_min (ns : List NodeSnapshot) (n : NodeSnapshot)
    (h : selectLeastPlayers ns = some n) :
    n ∈ ns ∧ ∀ m ∈ ns, n.stats.players ≤ m.stats.players := by
  have h2 : (ns.mergeSort
      (fun a b => decide (a.stats.players ≤ b.stats.players))).head?
      = some n := h
  exact head_mergeSort_key_min (fun x => x.stats.players) ns n h2

lemma selectLeastLoad_min (ns : List NodeSnapshot) (n : NodeSnapshot)
    (h : selectLeastLoad ns = some n) :
    n ∈ ns ∧ ∀ m ∈ ns, n.stats.cpu.lavalinkLoad ≤ m.stats.cpu.lavalinkLoad := by
  have h2 : (ns.mergeSort (fun a b =>
      decide (a.stats.cpu.lavalinkLoad ≤ b.stats.cpu.lavalinkLoad))).head?
      = some n := h
  exact head_mergeSort_key_min (fun x => x.stats.cpu.lavalinkLoad) ns n h2

lemma selectPriority_min (ns : List NodeSnapshot) (n : NodeSnapshot)
    (h : selectPriority ns = some n) :
    n ∈ ns ∧ ∀ m ∈ ns, n.priority ≤ m.priority := by
  have h2 : (ns.mergeSort (fun a b => decide (a.priority ≤ b.priority))).head?
      = some n := h
  exact head_mergeSort_key_min (fun x => x.priority) ns n h2

/-- **C6.** Node selection over the eligible set (`connected && isReady`):
an empty eligible set yields `NoAvailableNodes`; a single eligible node is
returned without sorting; otherwise the chosen node is always eligible, and
each strategy minimises its documented key (`LoadBalanced`:
`lavalinkLoad·(1+players·0.1)`; `LeastPlayers`: `players`; `LeastLoad`:
`lavalinkLoad`; `Priority`: `priority`); `Regional` restricts to eligible
nodes of the requested region and falls back to `LoadBalanced` over the full
eligible set when none match. -/
theorem claim_C6_node_selection (strategy : SelectionStrategy)
    (nodes : List NodeSnapshot) (region : Option String) :
    (eligibleNodes nodes = [] →
        selectNodeOrError strategy nodes region
          = Except.error RiasErrorCode.noAvailableNodes)
  ∧ (∀ n, eligibleNodes nodes = [n] →
        selectNodeOrError strategy nodes region = Except.ok n)
  ∧ (eligibleNodes nodes ≠ [] →
        ((getOptimalNode strategy nodes region).isSome) = true)
  ∧ (∀ n, getOptimalNode strategy nodes region = some n →
        n ∈ eligibleNodes nodes)
  ∧ (1 < (eligibleNodes nodes).length →
        (strategy = SelectionStrategy.loadBalanced →
          ∀ n, getOptimalNode strategy nodes region = some n →
            ∀ m ∈ eligibleNodes nodes, lbKey n ≤ lbKey m)
      ∧ (strategy = SelectionStrategy.leastPlayers →
          ∀ n, getOptimalNode strategy nodes region = some n →
            ∀ m ∈ eligibleNodes nodes, n.stats.players ≤ m.stats.players)
      ∧ (strategy = SelectionStrategy.leastLoad →
          ∀ n, getOptimalNode strategy nodes region = some n →
            ∀ m ∈ eligibleNodes nodes,
              n.stats.cpu.lavalinkLoad ≤ m.stats.cpu.lavalinkLoad)
      ∧ (strategy = SelectionStrategy.priority →
          ∀ n, getOptimalNode strategy nodes region = some n →
            ∀ m ∈ eligibleNodes nodes, n.priority ≤ m.priority)
      ∧ (strategy = SelectionStrategy.regional →
          (optStrTruthy region = false →
            getOptimalNode strategy nodes region
              = selectLoadBalanced (eligibleNodes nodes))
        ∧ (optStrTruthy region = true →
            ((eligibleNodes nodes).filter (fun n => n.region == region) = [] →
              getOptimalNode strategy nodes region
                = selectLoadBalanced (eligibleNodes nodes))
          ∧ (∀ n, getOptimalNode strategy nodes region = some n →
              (eligibleNodes nodes).filter (fun n => n.region == region) ≠ [] →
              n ∈ (eligibleNodes nodes).filter (fun n => n.region == region)
              ∧ ∀ m ∈ (eligibleNodes nodes).filter (fun n => n.region == region),
                  lbKey n ≤ lbKey m)))) := by
  refine ⟨?_, ?_, ?_, ?_, ?_⟩
  · intro he
    simp [selectNodeOrError, getOptimalNode, he]
  · intro n hn
    simp [selectNodeOrError, getOptimalNode, hn]
  · intro hne
    have h0 : (eligibleNodes nodes).length ≠ 0 := by
      simpa [List.length_eq_zero] using hne
    by_cases h1 : (eligibleNodes nodes).length = 1
    · obtain ⟨x, hx⟩ := List.length_eq_one.mp h1
      simp [getOptimalNode, hx]
    · have hsel : ∀ ns : List NodeSnapshot, ns ≠ [] →
          ∀ le : NodeSnapshot → NodeSnapshot → Bool,
          (((ns.mergeSort le).head?).isSome) = true :=
        fun ns hns le => mergeSort_head_isSome le ns hns
      cases strategy <;>
        simp only [getOptimalNode, if_neg h0, if_neg h1] <;>
        first
        | exact mergeSort_head_isSome _ _ hne
        | skip
      -- regional
      simp only [selectRegional]
      by_cases hreg : optStrTruthy region
      · simp only [hreg, Bool.not_true, Bool.false_eq_true, if_false]
        by_cases hflt : ((eligibleNodes nodes).filter
            (fun n => n.region == region)).isEmpty
        · simp only [hflt, if_true]
          exact mergeSort_head_isSome _ _ hne
        · simp only [hflt, Bool.false_eq_true, if_false]
          exact mergeSort_head_isSome _ _
            (by simpa [List.isEmpty_iff] using hflt)
      · have : (!(optStrTruthy region)) = true := by
          simp [hreg]
        simp only [this, if_true]
        exact mergeSort_head_isSome _ _ hne
  · intro n hn
    by_cases h0 : (eligibleNodes nodes).length = 0
    · simp [getOptimalNode, h0] at hn
    by_cases h1 : (eligibleNodes nodes).length = 1
    · obtain ⟨x, hx⟩ := List.length_eq_one.mp h1
      rw [getOptimalNode.eq_def, if_neg h0, if_pos h1, hx] at hn
      have hxn : x = n := by
        simpa using hn
      rw [hx, hxn]
      exact List.mem_cons_self _ _
    · rw [getOptimalNode.eq_def, if_neg h0, if_neg h1] at hn
      cases strategy with
      | loadBalanced => exact (selectLoadBalanced_min _ n hn).1
      | leastPlayers => exact (selectLeastPlayers_min _ n hn).1
      | leastLoad => exact (selectLeastLoad_min _ n hn).1
      | priority => exact (selectPriority_min _ n hn).1
      | regional =>
        rw [selectRegional.eq_def] at hn
        by_cases hreg : optStrTruthy region
        · rw [if_neg (by simp [hreg])] at hn
          by_cases hflt : ((eligibleNodes nodes).filter
              (fun n => n.region == region)).isEmpty
          · rw [if_pos hflt] at hn
            exact (selectLoadBalanced_min _ n hn).1
          · rw [if_neg hflt] at hn
            exact List.mem_of_mem_filter (selectLoadBalanced_min _ n hn).1
        · rw [if_pos (by simp [hreg])] at hn
          exact (selectLoadBalanced_min _ n hn).1
  · intro hlen
    have h0 : ¬ ((eligibleNodes nodes).length = 0) := by omega
    have h1 : ¬ ((eligibleNodes nodes).length = 1) := by omega
    refine ⟨?_, ?_, ?_, ?_, ?_⟩
    · rintro rfl n hn
      rw [getOptimalNode.eq_def, if_neg h0, if_neg h1] at hn
      exact (selectLoadBalanced_min _ n hn).2
    · rintro rfl n hn
      rw [getOptimalNode.eq_def, if_neg h0, if_neg h1] at hn
      exact (selectLeastPlayers_min _ n hn).2
    · rintro rfl n hn
      rw [getOptimalNode.eq_def, if_neg h0, if_neg h1] at hn
      exact (selectLeastLoad_min _ n hn).2
    · rintro rfl n hn
      rw [getOptimalNode.eq_def, if_neg h0, if_neg h1] at hn
      exact (selectPriority_min _ n hn).2
    · rintro rfl
      constructor
      · intro hreg
        rw [getOptimalNode.eq_def, if_neg h0, if_neg h1, selectRegional.eq_def,
          if_pos (by simp [hreg])]
      · intro hreg
        constructor
        · intro hflt
          rw [getOptimalNode.eq_def, if_neg h0, if_neg h1, selectRegional.eq_def,
            if_neg (by simp [hreg]),
            if_pos (by simp [List.isEmpty_iff, hflt])]
        · intro n hn hflt
          rw [getOptimalNode.eq_def, if_neg h0, if_neg h1, selectRegional.eq_def,
            if_neg (by simp [hreg]),
            if_neg (by simpa [List.isEmpty_iff] using hflt)] at hn
          exact selectLoadBalanced_min _ n hn

/-- Witness for C6: no eligible node yields the error; a single eligible
node is returned; with two eligible nodes, `LeastPlayers` picks the node
with the fewest players. -/
theorem claim_C6_node_selection_witness :
    (selectNodeOrError SelectionStrategy.leastPlayers [nodeSnapOff] Option.none
        = Except.error RiasErrorCode.noAvailableNodes)
  ∧ (selectNodeOrError SelectionStrategy.priority [nodeSnapOff, nodeSnapA]
        Option.none = Except.ok nodeSnapA)
  ∧ (∀ m ∈ eligibleNodes [nodeSnapA, nodeSnapB],
        nodeSnapB.stats.players ≤ m.stats.players) := by
  refine ⟨?_, ?_, ?_⟩
  · exact (claim_C6_node_selection SelectionStrategy.leastPlayers [nodeSnapOff]
      Option.none).1 rfl
  · exact (claim_C6_node_selection SelectionStrategy.priority
      [nodeSnapOff, nodeSnapA] Option.none).2.1 nodeSnapA rfl
  · refine ((claim_C6_node_selection SelectionStrategy.leastPlayers
      [nodeSnapA, nodeSnapB] Option.none).2.2.2.2 (by decide)).2.1 rfl
      nodeSnapB ?_
    show getOptimalNode SelectionStrategy.leastPlayers [nodeSnapA, nodeSnapB]
        Option.none = some nodeSnapB
    have helig : eligibleNodes [nodeSnapA, nodeSnapB] = [nodeSnapA, nodeSnapB] :=
      rfl
    rw [getOptimalNode.eq_def, helig]
    simp only [List.length_cons, List.length_nil]
    rw [if_neg (by omega), if_neg (by omega)]
    simp only [selectLeastPlayers, List.mergeSort]
    norm_num [nodeSnapA, nodeSnapB, statsEx]

/-! ### Smart shuffle: permutation bookkeeping for swaps and sifts -/

lemma cons_set_perm {α : Type} (t : List α) (k : Nat) (x d : α)
    (hk : k < t.length) :
    List.Perm (t.getD k d :: t.set k x) (x :: t) := by
  induction t generalizing k with
  | nil => cases hk
  | cons y s ih =>
    cases k with
    | zero =>
      simpa using List.Perm.swap x y s
    | succ k =>
      have hks : k < s.length := by
        simpa using hk
      have ihk := ih k hks
      have step1 : List.Perm (s.getD k d :: y :: s.set k x)
          (y :: s.getD k d :: s.set k x) := List.Perm.swap _ _ _
      have step2 : List.Perm (y :: s.getD k d :: s.set k x) (y :: x :: s) :=
        List.Perm.cons y ihk
      have step3 : List.Perm (y :: x :: s) (x :: y :: s) := List.Perm.swap _ _ _
      simpa using (step1.trans step2).trans step3

lemma set_set_swap_perm {α : Type} (l : List α) (i j : Nat) (d : α)
    (hij : i < j) (hj : j < l.length) :
    List.Perm ((l.set i (l.getD j d)).set j (l.getD i d)) l := by
  induction l generalizing i j with
  | nil => cases hj
  | cons y s ih =>
    cases i with
    | zero =>
      cases j with
      | zero => cases hij
      | succ m =>
        have hm : m < s.length := by
          simpa using hj
        simpa using cons_set_perm s m y d hm
    | succ a =>
      cases j with
      | zero => cases hij
      | succ b =>
        have hab : a < b := by omega
        have hb : b < s.length := by
          simpa using hj
        simpa using List.Perm.cons y (ih a b hab hb)

lemma set_getD_self {α : Type} (l : List α) (i : Nat) (d : α) :
    l.set i (l.getD i d) = l := by
  induction l generalizing i with
  | nil => rfl
  | cons y s ih =>
    cases i with
    | zero => rfl
    | succ k => simpa using ih k

lemma listSwap_perm {α : Type} (l : List α) (i j : Nat) :
    List.Perm (listSwap l i j) l := by
  unfold listSwap
  cases hi : l[i]? with
  | none => exact List.Perm.refl l
  | some a =>
    cases hj : l[j]? with
    | none => exact List.Perm.refl l
    | some b =>
      have hil : i < l.length := by
        by_contra hcon
        rw [List.getElem?_eq_none (by omega)] at hi
        cases hi
      have hjl : j < l.length := by
        by_contra hcon
        rw [List.getElem?_eq_none (by omega)] at hj
        cases hj
      have ha : l.getD i a = a := by
        simp [List.getD, hi]
      have hb : l.getD j a = b := by
        simp [List.getD, hj]
      show List.Perm ((l.set i b).set j a) l
      rcases Nat.lt_trichotomy i j with hlt | heq | hgt
      · rw [← ha, ← hb]
        exact set_set_swap_perm l i j a hlt hjl
      · subst heq
        rw [hi] at hj
        cases hj
        rw [List.set_set, ← ha, set_getD_self]
      · have hcomm : (l.set i b).set j a = (l.set j a).set i b :=
          List.set_comm _ _ _ (by omega)
        rw [hcomm, ← ha, ← hb]
        exact set_set_swap_perm l j i a hgt hil

lemma listSwap_length {α : Type} (l : List α) (i j : Nat) :
    (listSwap l i j).length = l.length :=
  (listSwap_perm l i j).length_eq

lemma fisherYatesF_perm {α : Type} (rand : Nat → Nat)
    (l : List α) (i : Nat) : List.Perm (fisherYatesF rand l i) l := by
  induction i generalizing l with
  | zero => exact List.Perm.refl l
  | succ i ih =>
    exact (ih _).trans (listSwap_perm l (i + 1) (rand (i + 1) % (i + 2)))

lemma fisherYates_perm {α : Type} (rand : Nat → Nat)
    (l : List α) : List.Perm (fisherYates rand l) l :=
  fisherYatesF_perm rand l (l.length - 1)

/-! ### Smart shuffle: author grouping -/

lemma bucketsTracks_cons (b : ArtistBucket) (bs : List ArtistBucket) :
    bucketsTracks (b :: bs) = ↑b.tracks + bucketsTracks bs := by
  simp [bucketsTracks]

lemma bucketsTracks_addToGroup (bs : List ArtistBucket) (t : Track) :
    bucketsTracks (addToGroup bs t) = bucketsTracks bs + {t} := by
  induction bs with
  | nil => simp [addToGroup, bucketsTracks]
  | cons b rest ih =>
    by_cases h : b.key = authorKey t
    · rw [addToGroup, if_pos h, bucketsTracks_cons, bucketsTracks_cons]
      have happ : ((b.tracks ++ [t] : List Track) : Multiset Track)
          = ↑b.tracks + {t} := by
        simp [← Multiset.coe_singleton, Multiset.coe_add]
      show ((b.tracks ++ [t] : List Track) : Multiset Track) + bucketsTracks rest
          = ↑b.tracks + bucketsTracks rest + {t}
      rw [happ]
      exact add_right_comm _ _ _
    · rw [addToGroup, if_neg h, bucketsTracks_cons, ih, bucketsTracks_cons]
      exact (add_assoc _ _ _).symm

lemma bucketsTracks_groupByAuthor_aux (l : List Track)
    (acc : List ArtistBucket) :
    bucketsTracks (l.foldl addToGroup acc) = bucketsTracks acc + ↑l := by
  induction l generalizing acc with
  | nil => simp
  | cons t rest ih =>
    simp only [List.foldl_cons]
    rw [ih, bucketsTracks_addToGroup]
    have hco : ((t :: rest : List Track) : Multiset Track) = {t} + ↑rest := by
      simp
    rw [hco]
    exact add_assoc _ _ _

lemma bucketsTracks_groupByAuthor (l : List Track) :
    bucketsTracks (groupByAuthor l) = ↑l := by
  have := bucketsTracks_groupByAuthor_aux l []
  simpa [bucketsTracks, groupByAuthor] using this

lemma addToGroup_keys_mem (bs : List ArtistBucket) (t : Track) (k : String)
    (hk : k ∈ (addToGroup bs t).map ArtistBucket.key) :
    k ∈ bs.map ArtistBucket.key ∨ k = authorKey t := by
  induction bs with
  | nil =>
    simp [addToGroup] at hk
    exact Or.inr hk
  | cons b rest ih =>
    by_cases h : b.key = authorKey t
    · simp only [addToGroup, if_pos h, List.map_cons, List.mem_cons] at hk
      rcases hk with hk | hk
      · exact Or.inl (by simp [hk])
      · exact Or.inl (by simp [hk])
    · simp only [addToGroup, if_neg h, List.map_cons, List.mem_cons] at hk
      rcases hk with hk | hk
      · exact Or.inl (by simp [hk])
      · rcases ih hk with h2 | h2
        · exact Or.inl (by simp [h2])
        · exact Or.inr h2

lemma addToGroup_keysNodup (bs : List ArtistBucket) (t : Track)
    (h : keysNodup bs) : keysNodup (addToGroup bs t) := by
  induction bs with
  | nil => simp [addToGroup, keysNodup]
  | cons b rest ih =>
    rw [keysNodup, List.map_cons, List.nodup_cons] at h
    by_cases hk : b.key = authorKey t
    · rw [keysNodup, addToGroup, if_pos hk, List.map_cons, List.nodup_cons]
      exact ⟨h.1, h.2⟩
    · rw [keysNodup, addToGroup, if_neg hk, List.map_cons, List.nodup_cons]
      refine ⟨?_, ih h.2⟩
      intro hmem
      rcases addToGroup_keys_mem rest t b.key hmem with h2 | h2
      · exact h.1 h2
      · exact hk h2

lemma addToGroup_WF (bs : List ArtistBucket) (t : Track)
    (h : bucketsWF bs) : bucketsWF (addToGroup bs t) := by
  induction bs with
  | nil =>
    intro b hb
    simp only [addToGroup, List.mem_singleton] at hb
    subst hb
    exact ⟨by simp, by simp⟩
  | cons b0 rest ih =>
    have h0 := h b0 (by simp)
    have hrest : bucketsWF rest := fun b hb => h b (by simp [hb])
    by_cases hk : b0.key = authorKey t
    · intro b hb
      rw [addToGroup, if_pos hk] at hb
      rcases List.mem_cons.mp hb with rfl | hb2
      · refine ⟨?_, by simp⟩
        intro x hx
        rcases List.mem_append.mp hx with hx | hx
        · exact h0.1 x hx
        · rw [List.mem_singleton.mp hx]
          exact hk.symm
      · exact hrest b hb2
    · intro b hb
      rw [addToGroup, if_neg hk] at hb
      rcases List.mem_cons.mp hb with rfl | hb2
      · exact h0
      · exact ih hrest b hb2

lemma groupByAuthor_aux_props (l : List Track) (acc : List ArtistBucket)
    (hN : keysNodup acc) (hW : bucketsWF acc) :
    keysNodup (l.foldl addToGroup acc) ∧ bucketsWF (l.foldl addToGroup acc) := by
  induction l generalizing acc with
  | nil => exact ⟨hN, hW⟩
  | cons t rest ih =>
    simp only [List.foldl_cons]
    exact ih _ (addToGroup_keysNodup acc t hN) (addToGroup_WF acc t hW)

lemma groupByAuthor_keysNodup (l : List Track) :
    keysNodup (groupByAuthor l) :=
  (groupByAuthor_aux_props l [] (by simp [keysNodup]) (by intro b hb; cases hb)).1

lemma groupByAuthor_WF (l : List Track) : bucketsWF (groupByAuthor l) :=
  (groupByAuthor_aux_props l [] (by simp [keysNodup]) (by intro b hb; cases hb)).2

lemma bsize_le_countP (bs : List ArtistBucket)
    (hW : ∀ b ∈ bs, ∀ t ∈ b.tracks, authorKey t = b.key)
    (b : ArtistBucket) (hb : b ∈ bs) :
    bsize b ≤ Multiset.countP (fun t => authorKey t = b.key) (bucketsTracks bs) := by
  induction bs with
  | nil => cases hb
  | cons b0 rest ih =>
    rw [bucketsTracks_cons, Multiset.countP_add]
    rcases List.mem_cons.mp hb with rfl | hb2
    · have hcount : Multiset.countP (fun t => authorKey t = b.key)
          (↑b.tracks : Multiset Track) = bsize b := by
        rw [Multiset.countP_eq_card.mpr]
        · simp [bsize]
        · intro t ht
          exact hW b (by simp) t (by simpa using ht)
      rw [hcount]
      exact Nat.le_add_right _ _
    · exact le_trans (ih (fun b' hb' => hW b' (by simp [hb'])) hb2)
        (Nat.le_add_left _ _)

/-! ### Smart shuffle: per-bucket shuffling -/

lemma shuffleBuckets_map_key (rand : Nat → Nat → Nat) (i : Nat)
    (bs : List ArtistBucket) :
    (shuffleBuckets rand i bs).map ArtistBucket.key = bs.map ArtistBucket.key := by
  induction bs generalizing i with
  | nil => rfl
  | cons b rest ih => simp [shuffleBuckets, ih]

lemma shuffleBuckets_perm_each (rand : Nat → Nat → Nat) (i : Nat)
    (bs : List ArtistBucket) :
    List.Forall₂ (fun b' b => b'.key = b.key ∧ List.Perm b'.tracks b.tracks)
      (shuffleBuckets rand i bs) bs := by
  induction bs generalizing i with
  | nil => exact List.Forall₂.nil
  | cons b rest ih =>
    exact List.Forall₂.cons ⟨rfl, fisherYates_perm _ _⟩ (ih _)

lemma shuffleBuckets_tracks (rand : Nat → Nat → Nat) (i : Nat)
    (bs : List ArtistBucket) :
    bucketsTracks (shuffleBuckets rand i bs) = bucketsTracks bs := by
  induction bs generalizing i with
  | nil => rfl
  | cons b rest ih =>
    rw [shuffleBuckets, bucketsTracks_cons, bucketsTracks_cons, ih]
    have h1 : ((fisherYates (rand i) b.tracks : List Track) : Multiset Track)
        = ↑b.tracks := Multiset.coe_eq_coe.mpr (fisherYates_perm _ _)
    show ((fisherYates (rand i) b.tracks : List Track) : Multiset Track)
        + bucketsTracks rest = ↑b.tracks + bucketsTracks rest
    rw [h1]

lemma shuffleBuckets_WF (rand : Nat → Nat → Nat) (i : Nat)
    (bs : List ArtistBucket) (h : bucketsWF bs) :
    bucketsWF (shuffleBuckets rand i bs) := by
  induction bs generalizing i with
  | nil => intro b hb; cases hb
  | cons b rest ih =>
    have hrest : bucketsWF rest := fun b'' hb'' => h b'' (by simp [hb''])
    intro b' hb'
    rcases List.mem_cons.mp hb' with rfl | hb2
    · have hb0 := h b (by simp)
      refine ⟨?_, ?_⟩
      · intro t ht
        exact hb0.1 t ((fisherYates_perm (rand i) b.tracks).mem_iff.mp ht)
      · intro hcon
        have hcon2 : fisherYates (rand i) b.tracks = [] := hcon
        have hlen := (fisherYates_perm (rand i) b.tracks).length_eq
        rw [hcon2] at hlen
        simp only [List.length_nil] at hlen
        exact hb0.2 (List.length_eq_zero.mp hlen.symm)
    · exact ih (i + 1) hrest b' hb2

lemma shuffleBuckets_keysNodup (rand : Nat → Nat → Nat) (i : Nat)
    (bs : List ArtistBucket) (h : keysNodup bs) :
    keysNodup (shuffleBuckets rand i bs) := by
  rw [keysNodup, shuffleBuckets_map_key]
  exact h

/-! ### Smart shuffle: heap bookkeeping -/

lemma siftUpF_perm (fuel : Nat) (h : List ArtistBucket) (i : Nat) :
    List.Perm (siftUpF fuel h i) h := by
  induction fuel generalizing h i with
  | zero => exact List.Perm.refl h
  | succ fuel ih =>
    cases i with
    | zero => exact List.Perm.refl h
    | succ i =>
      rw [siftUpF]
      split
      · exact List.Perm.refl h
      · exact (ih _ _).trans (listSwap_perm _ _ _)

lemma siftDownF_perm (fuel : Nat) (h : List ArtistBucket) (i : Nat) :
    List.Perm (siftDownF fuel h i) h := by
  induction fuel generalizing h i with
  | zero => exact List.Perm.refl h
  | succ fuel ih =>
    rw [siftDownF]
    split_ifs <;>
      first
        | exact List.Perm.refl h
        | exact (ih _ _).trans (listSwap_perm _ _ _)

lemma pushHeap_perm (h : List ArtistBucket) (b : ArtistBucket) :
    List.Perm (pushHeap h b) (b :: h) :=
  (siftUpF_perm _ _ _).trans (List.perm_append_singleton b h)

lemma pushHeap_length (h : List ArtistBucket) (b : ArtistBucket) :
    (pushHeap h b).length = h.length + 1 := by
  have := (pushHeap_perm h b).length_eq
  simpa using this

lemma pushHeap_tracks (h : List ArtistBucket) (b : ArtistBucket) :
    bucketsTracks (pushHeap h b) = ↑b.tracks + bucketsTracks h := by
  have hperm := (pushHeap_perm h b).map (fun b => (b.tracks : Multiset Track))
  have := hperm.sum_eq
  rw [bucketsTracks, this, List.map_cons, List.sum_cons, ← bucketsTracks]

lemma bucketsTracks_perm {h h2 : List ArtistBucket}
    (p : List.Perm h h2) : bucketsTracks h = bucketsTracks h2 := by
  unfold bucketsTracks
  exact (p.map _).sum_eq

lemma heapTracksTotal_perm {h h2 : List ArtistBucket}
    (p : List.Perm h h2) : heapTracksTotal h = heapTracksTotal h2 := by
  unfold heapTracksTotal
  exact (p.map _).sum_eq

lemma pushHeap_total (h : List ArtistBucket) (b : ArtistBucket) :
    heapTracksTotal (pushHeap h b) = bsize b + heapTracksTotal h := by
  have := heapTracksTotal_perm (pushHeap_perm h b)
  rw [this]
  simp [heapTracksTotal]

lemma popHeap_eq_none_iff (h : List ArtistBucket) :
    popHeap h = Option.none ↔ h = [] := by
  cases h with
  | nil => simp [popHeap]
  | cons top tail =>
    constructor
    · intro hp
      rw [popHeap] at hp
      rcases hd : (top :: tail).dropLast with _ | ⟨r, rs⟩ <;>
        rw [hd] at hp <;> cases hp
    · intro hcon
      cases hcon

lemma popHeap_some (h : List ArtistBucket) (b : ArtistBucket)
    (h2 : List ArtistBucket) (hp : popHeap h = some (b, h2)) :
    b = heapGet h 0 ∧ List.Perm (b :: h2) h := by
  cases h with
  | nil => cases hp
  | cons top tail =>
    cases tail with
    | nil =>
      rw [popHeap] at hp
      have hdl : ([top] : List ArtistBucket).dropLast = [] := rfl
      rw [hdl] at hp
      cases hp
      exact ⟨rfl, List.Perm.refl _⟩
    | cons x xs =>
      rw [popHeap] at hp
      have hdl : (top :: x :: xs).dropLast = top :: (x :: xs).dropLast := rfl
      rw [hdl] at hp
      rw [Option.some.injEq, Prod.mk.injEq] at hp
      obtain ⟨hb, hh2⟩ := hp
      subst hb
      subst hh2
      refine ⟨rfl, ?_⟩
      refine List.Perm.cons top ?_
      have hsift := siftDownF_perm (top :: x :: xs).length
        (((top :: (x :: xs).dropLast)).set 0 ((top :: x :: xs).getLastD default)) 0
      refine hsift.trans ?_
      have hset : ((top :: (x :: xs).dropLast)).set 0
          ((top :: x :: xs).getLastD default)
          = (top :: x :: xs).getLastD default :: (x :: xs).dropLast := rfl
      rw [hset]
      have hlast : (top :: x :: xs).getLastD default
          = (x :: xs).getLast (by simp) := by
        rw [List.getLastD_eq_getLast?, List.getLast?_cons_cons,
          List.getLast?_eq_getLast _ (by simp)]
        rfl
      rw [hlast]
      have happ := @List.dropLast_append_getLast ArtistBucket
        (x :: xs) (by simp)
      have hperm1 := (List.perm_append_singleton
        ((x :: xs).getLast (by simp)) ((x :: xs).dropLast)).symm
      rw [happ] at hperm1
      exact hperm1

/-! ### Smart shuffle: the heap shape invariant -/

lemma listSwap_getElem?_fst {α : Type} (l : List α) (i j : Nat)
    (hi : i < l.length) (hj : j < l.length) :
    (listSwap l i j)[i]? = l[j]? := by
  unfold listSwap
  rw [List.getElem?_eq_getElem hi, List.getElem?_eq_getElem hj]
  show ((l.set i (l.get ⟨j, hj⟩)).set j (l.get ⟨i, hi⟩))[i]? = some (l.get ⟨j, hj⟩)
  by_cases hij : i = j
  · subst hij
    rw [List.set_set, List.getElem?_set_eq (by simpa using hj)]
  · rw [List.getElem?_set_ne (fun hh => hij hh.symm),
      List.getElem?_set_eq (by simpa using hi)]

lemma listSwap_getElem?_snd {α : Type} (l : List α) (i j : Nat)
    (hi : i < l.length) (hj : j < l.length) :
    (listSwap l i j)[j]? = l[i]? := by
  unfold listSwap
  rw [List.getElem?_eq_getElem hi, List.getElem?_eq_getElem hj]
  show ((l.set i (l.get ⟨j, hj⟩)).set j (l.get ⟨i, hi⟩))[j]? = some (l.get ⟨i, hi⟩)
  rw [List.getElem?_set_eq (by simpa using hj)]

lemma listSwap_getElem?_other {α : Type} (l : List α) (i j k : Nat)
    (hki : k ≠ i) (hkj : k ≠ j) :
    (listSwap l i j)[k]? = l[k]? := by
  unfold listSwap
  cases hgi : l[i]? with
  | none => rfl
  | some a =>
    cases hgj : l[j]? with
    | none => rfl
    | some b =>
      show ((l.set i b).set j a)[k]? = l[k]?
      rw [List.getElem?_set_ne (fun hh => hkj hh.symm),
        List.getElem?_set_ne (fun hh => hki hh.symm)]

lemma heapGet_listSwap_fst (h : List ArtistBucket) (i j : Nat)
    (hi : i < h.length) (hj : j < h.length) :
    heapGet (listSwap h i j) i = heapGet h j := by
  rw [heapGet, heapGet, List.getD_eq_getElem?_getD, List.getD_eq_getElem?_getD,
    listSwap_getElem?_fst h i j hi hj]

lemma heapGet_listSwap_snd (h : List ArtistBucket) (i j : Nat)
    (hi : i < h.length) (hj : j < h.length) :
    heapGet (listSwap h i j) j = heapGet h i := by
  rw [heapGet, heapGet, List.getD_eq_getElem?_getD, List.getD_eq_getElem?_getD,
    listSwap_getElem?_snd h i j hi hj]

lemma heapGet_listSwap_other (h : List ArtistBucket) (i j k : Nat)
    (hki : k ≠ i) (hkj : k ≠ j) :
    heapGet (listSwap h i j) k = heapGet h k := by
  rw [heapGet, heapGet, List.getD_eq_getElem?_getD, List.getD_eq_getElem?_getD,
    listSwap_getElem?_other h i j k hki hkj]

lemma siftUpF_isHeap (fuel : Nat) :
    ∀ (h : List ArtistBucket) (i : Nat), i < fuel → i < h.length →
      AlmostHeapUp h i → IsHeap (siftUpF fuel h i) := by
  induction fuel with
  | zero =>
    intro h i hif
    exact absurd hif (Nat.not_lt_zero i)
  | succ fuel ih =>
    intro h i hifuel hilen hAU
    cases i with
    | zero =>
      rw [siftUpF]
      intro j hj0 hjlen
      exact hAU.1 j hj0 hjlen (by omega)
    | succ k =>
      rw [siftUpF]
      by_cases hcmp : bsize (heapGet h ((k + 1 - 1) / 2))
          ≥ bsize (heapGet h (k + 1))
      · rw [if_pos hcmp]
        intro j hj0 hjlen
        by_cases hji : j = k + 1
        · subst hji
          exact hcmp
        · exact hAU.1 j hj0 hjlen hji
      · rw [if_neg hcmp]
        have hlt : bsize (heapGet h ((k + 1 - 1) / 2))
            < bsize (heapGet h (k + 1)) := by omega
        have hplt : (k + 1 - 1) / 2 < k + 1 := by omega
        have hplen : (k + 1 - 1) / 2 < h.length := by omega
        have hswp_p : heapGet (listSwap h ((k + 1 - 1) / 2) (k + 1))
            ((k + 1 - 1) / 2) = heapGet h (k + 1) :=
          heapGet_listSwap_fst h _ _ hplen hilen
        have hswp_i : heapGet (listSwap h ((k + 1 - 1) / 2) (k + 1)) (k + 1)
            = heapGet h ((k + 1 - 1) / 2) :=
          heapGet_listSwap_snd h _ _ hplen hilen
        have hswp_o : ∀ x, x ≠ (k + 1 - 1) / 2 → x ≠ k + 1 →
            heapGet (listSwap h ((k + 1 - 1) / 2) (k + 1)) x = heapGet h x :=
          fun x hx1 hx2 => heapGet_listSwap_other h _ _ x hx1 hx2
        apply ih
        · omega
        · rw [listSwap_length]
          omega
        · constructor
          · intro j hj0 hjlen2 hjp
            rw [listSwap_length] at hjlen2
            by_cases hji : j = k + 1
            · subst hji
              rw [hswp_p, hswp_i]
              omega
            · rw [hswp_o j hjp hji]
              by_cases hpj : (j - 1) / 2 = (k + 1 - 1) / 2
              · rw [hpj, hswp_p]
                have := hAU.1 j hj0 hjlen2 hji
                rw [hpj] at this
                omega
              · by_cases hij2 : (j - 1) / 2 = k + 1
                · rw [hij2, hswp_i]
                  exact hAU.2 (by omega) j hj0 hjlen2 hij2
                · rw [hswp_o _ hpj hij2]
                  exact hAU.1 j hj0 hjlen2 hji
          · intro hp0 j hj0 hjlen2 hpar
            rw [listSwap_length] at hjlen2
            have hg1 : ((k + 1 - 1) / 2 - 1) / 2 ≠ (k + 1 - 1) / 2 := by omega
            have hg2 : ((k + 1 - 1) / 2 - 1) / 2 ≠ k + 1 := by omega
            rw [hswp_o _ hg1 hg2]
            have hgp : bsize (heapGet h (((k + 1 - 1) / 2 - 1) / 2))
                ≥ bsize (heapGet h ((k + 1 - 1) / 2)) :=
              hAU.1 ((k + 1 - 1) / 2) hp0 hplen (by omega)
            by_cases hji : j = k + 1
            · subst hji
              rw [hswp_i]
              exact hgp
            · have hjne : j ≠ (k + 1 - 1) / 2 := by omega
              rw [hswp_o j hjne hji]
              have := hAU.1 j hj0 hjlen2 hji
              rw [hpar] at this
              omega

lemma siftDown_step (fuel : Nat) (h : List ArtistBucket) (i m : Nat)
    (ihfuel : ∀ (h2 : List ArtistBucket) (i2 : Nat), h2.length ≤ fuel + i2 →
      AlmostHeapDown h2 i2 → IsHeap (siftDownF fuel h2 i2))
    (hm : m = 2 * i + 1 ∨ m = 2 * i + 2) (hmlen : m < h.length)
    (hlen : h.length ≤ fuel + 1 + i)
    (hmax_i : bsize (heapGet h i) < bsize (heapGet h m))
    (hmax_l : 2 * i + 1 < h.length →
      bsize (heapGet h (2 * i + 1)) ≤ bsize (heapGet h m))
    (hmax_r : 2 * i + 2 < h.length →
      bsize (heapGet h (2 * i + 2)) ≤ bsize (heapGet h m))
    (hAD : AlmostHeapDown h i) :
    IsHeap (siftDownF fuel (listSwap h i m) m) := by
  have him : i < m := by omega
  have hilen : i < h.length := by omega
  have hswp_i : heapGet (listSwap h i m) i = heapGet h m :=
    heapGet_listSwap_fst h i m hilen hmlen
  have hswp_m : heapGet (listSwap h i m) m = heapGet h i :=
    heapGet_listSwap_snd h i m hilen hmlen
  have hswp_o : ∀ x, x ≠ i → x ≠ m →
      heapGet (listSwap h i m) x = heapGet h x :=
    fun x hx1 hx2 => heapGet_listSwap_other h i m x hx1 hx2
  apply ihfuel
  · rw [listSwap_length]
    omega
  · constructor
    · intro j hj0 hjlen hjparm
      rw [listSwap_length] at hjlen
      by_cases hji : j = i
      · subst hji
        have hg1 : (j - 1) / 2 ≠ j := by omega
        have hg2 : (j - 1) / 2 ≠ m := by omega
        rw [hswp_o _ hg1 hg2, hswp_i]
        exact hAD.2 hj0 m (by omega) hmlen (by omega)
      · by_cases hjm : j = m
        · subst hjm
          have hpm : (j - 1) / 2 = i := by omega
          rw [hpm, hswp_i, hswp_m]
          omega
        · rw [hswp_o j hji hjm]
          by_cases hpj : (j - 1) / 2 = i
          · rw [hpj, hswp_i]
            have hjc : j = 2 * i + 1 ∨ j = 2 * i + 2 := by omega
            rcases hjc with rfl | rfl
            · exact hmax_l hjlen
            · exact hmax_r hjlen
          · rw [hswp_o _ hpj hjparm]
            exact hAD.1 j hj0 hjlen hpj
    · intro hm0 j hj0 hjlen hparm
      rw [listSwap_length] at hjlen
      have hpm : (m - 1) / 2 = i := by omega
      have hji : j ≠ i := by omega
      have hjm : j ≠ m := by omega
      rw [hpm, hswp_i, hswp_o j hji hjm]
      have hmi : m ≠ i := by omega
      have := hAD.1 j hj0 hjlen (by omega)
      rw [hparm] at this
      omega

lemma siftDownF_isHeap (fuel : Nat) :
    ∀ (h : List ArtistBucket) (i : Nat), h.length ≤ fuel + i →
      AlmostHeapDown h i → IsHeap (siftDownF fuel h i) := by
  induction fuel with
  | zero =>
    intro h i hlen hAD
    rw [siftDownF]
    intro j hj0 hjlen
    exact hAD.1 j hj0 hjlen (by omega)
  | succ fuel ih =>
    intro h i hlen hAD
    rw [siftDownF]
    by_cases hC1 : 2 * i + 1 < h.length
        ∧ bsize (heapGet h (2 * i + 1)) > bsize (heapGet h i)
    · simp only [if_pos hC1]
      by_cases hC2 : 2 * i + 2 < h.length
          ∧ bsize (heapGet h (2 * i + 2)) > bsize (heapGet h (2 * i + 1))
      · simp only [if_pos hC2]
        rw [if_neg (by omega)]
        exact siftDown_step fuel h i (2 * i + 2) ih (Or.inr rfl) hC2.1 hlen
          (by omega) (fun _ => by omega) (fun _ => le_refl _) hAD
      · simp only [if_neg hC2]
        rw [if_neg (by omega)]
        push_neg at hC2
        exact siftDown_step fuel h i (2 * i + 1) ih (Or.inl rfl) hC1.1 hlen
          hC1.2 (fun _ => le_refl _) (fun hr => by have := hC2 hr; omega) hAD
    · simp only [if_neg hC1]
      by_cases hC2 : 2 * i + 2 < h.length
          ∧ bsize (heapGet h (2 * i + 2)) > bsize (heapGet h i)
      · simp only [if_pos hC2]
        rw [if_neg (by omega)]
        push_neg at hC1
        exact siftDown_step fuel h i (2 * i + 2) ih (Or.inr rfl) hC2.1 hlen
          hC2.2 (fun hl => by have := hC1 hl; omega) (fun _ => le_refl _) hAD
      · simp only [if_neg hC2]
        rw [if_pos trivial]
        push_neg at hC1 hC2
        intro j hj0 hjlen
        by_cases hpj : (j - 1) / 2 = i
        · have hjc : j = 2 * i + 1 ∨ j = 2 * i + 2 := by omega
          rw [hpj]
          rcases hjc with rfl | rfl
          · have := hC1 hjlen
            omega
          · have := hC2 hjlen
            omega
        · exact hAD.1 j hj0 hjlen hpj

lemma heapGet_append_lt (h : List ArtistBucket) (b : ArtistBucket) (x : Nat)
    (hx : x < h.length) : heapGet (h ++ [b]) x = heapGet h x := by
  rw [heapGet, heapGet, List.getD_eq_getElem?_getD, List.getD_eq_getElem?_getD,
    List.getElem?_append_left hx]

lemma pushHeap_isHeap (h : List ArtistBucket) (b : ArtistBucket)
    (hh : IsHeap h) : IsHeap (pushHeap h b) := by
  apply siftUpF_isHeap
  · omega
  · simp
  · constructor
    · intro j hj0 hjlen hji
      simp only [List.length_append, List.length_singleton] at hjlen
      have hjlt : j < h.length := by omega
      rw [heapGet_append_lt h b j hjlt, heapGet_append_lt h b _ (by omega)]
      exact hh j hj0 hjlt
    · intro _ j hj0 hjlen hpar
      simp only [List.length_append, List.length_singleton] at hjlen
      omega

lemma isHeap_le_root (h : List ArtistBucket) (hh : IsHeap h) :
    ∀ i, i < h.length → bsize (heapGet h i) ≤ bsize (heapGet h 0) := by
  intro i
  induction i using Nat.strong_induction_on with
  | _ i ih =>
    intro hlen
    cases Nat.eq_zero_or_pos i with
    | inl h0 =>
      subst h0
      exact le_refl _
    | inr hpos =>
      have hp := hh i hpos hlen
      have hrec := ih ((i - 1) / 2) (by omega) (by omega)
      omega

lemma popHeap_max (h : List ArtistBucket) (b : ArtistBucket)
    (h2 : List ArtistBucket) (hh : IsHeap h)
    (hp : popHeap h = some (b, h2)) :
    ∀ x ∈ h, bsize x ≤ bsize b := by
  obtain ⟨hb, _⟩ := popHeap_some h b h2 hp
  subst hb
  intro x hx
  obtain ⟨n, hn, hget⟩ := List.mem_iff_getElem.mp hx
  have hx2 : heapGet h n = x := by
    rw [heapGet, List.getD_eq_getElem?_getD, List.getElem?_eq_getElem hn, hget]
    rfl
  rw [← hx2]
  exact isHeap_le_root h hh n hn

lemma popHeap_isHeap (h : List ArtistBucket) (b : ArtistBucket)
    (h2 : List ArtistBucket) (hh : IsHeap h)
    (hp : popHeap h = some (b, h2)) : IsHeap h2 := by
  cases h with
  | nil => cases hp
  | cons top tail =>
    cases tail with
    | nil =>
      rw [popHeap] at hp
      have hdl : ([top] : List ArtistBucket).dropLast = [] := rfl
      rw [hdl] at hp
      rw [Option.some.injEq, Prod.mk.injEq] at hp
      obtain ⟨_, hh2⟩ := hp
      subst hh2
      intro j hj0 hjlen
      simp at hjlen
    | cons x xs =>
      rw [popHeap] at hp
      have hdl : (top :: x :: xs).dropLast = top :: (x :: xs).dropLast := rfl
      rw [hdl] at hp
      rw [Option.some.injEq, Prod.mk.injEq] at hp
      obtain ⟨_, hh2⟩ := hp
      subst hh2
      have hset : ((top :: (x :: xs).dropLast)).set 0
          ((top :: x :: xs).getLastD default)
          = (top :: x :: xs).getLastD default :: (x :: xs).dropLast := rfl
      rw [hset]
      apply siftDownF_isHeap
      · simp [List.length_dropLast]
      · have hagree : ∀ y, 1 ≤ y →
            y < ((top :: x :: xs).getLastD default :: (x :: xs).dropLast).length →
            heapGet ((top :: x :: xs).getLastD default :: (x :: xs).dropLast) y
              = heapGet (top :: x :: xs) y := by
          intro y hy1 hy2
          cases y with
          | zero => omega
          | succ z =>
            simp only [List.length_cons, List.length_dropLast,
              List.length_cons] at hy2
            have hz : z < ((x :: xs).dropLast).length := by
              simp [List.length_dropLast]
              omega
            show heapGet ((x :: xs).dropLast) z = heapGet (x :: xs) z
            rw [heapGet, heapGet, List.getD_eq_getElem?_getD,
              List.getD_eq_getElem?_getD, List.getElem?_eq_getElem hz,
              List.getElem?_eq_getElem (by
                simp only [List.length_dropLast, List.length_cons] at hz
                simp only [List.length_cons]
                omega),
              List.getElem_dropLast]
        constructor
        · intro j hj0 hjlen hjp
          have hp0 : 1 ≤ (j - 1) / 2 := by omega
          rw [hagree j (by omega) hjlen, hagree _ hp0 (by
            simp only [List.length_cons, List.length_dropLast,
              List.length_cons] at hjlen ⊢
            omega)]
          apply hh j hj0
          simp only [List.length_cons, List.length_dropLast,
            List.length_cons] at hjlen
          simp only [List.length_cons]
          omega
        · intro h00
          omega

/-! ### Smart shuffle: the emission loop -/

lemma heapTracksTotal_cons (b : ArtistBucket) (bs : List ArtistBucket) :
    heapTracksTotal (b :: bs) = bsize b + heapTracksTotal bs := by
  simp [heapTracksTotal]

lemma bsize_le_total (bs : List ArtistBucket) (b : ArtistBucket)
    (hb : b ∈ bs) : bsize b ≤ heapTracksTotal bs := by
  induction bs with
  | nil => cases hb
  | cons b0 rest ih =>
    rw [heapTracksTotal_cons]
    rcases List.mem_cons.mp hb with rfl | hb2
    · exact Nat.le_add_right _ _
    · exact le_trans (ih hb2) (Nat.le_add_left _ _)

lemma popHeap_facts (h : List ArtistBucket) (b : ArtistBucket)
    (h2 : List ArtistBucket) (hp : popHeap h = some (b, h2)) :
    b ∈ h ∧ h2.length + 1 = h.length
    ∧ bucketsTracks h = ↑b.tracks + bucketsTracks h2
    ∧ heapTracksTotal h = bsize b + heapTracksTotal h2 := by
  obtain ⟨_, hperm⟩ := popHeap_some h b h2 hp
  refine ⟨hperm.subset (List.mem_cons_self _ _), ?_, ?_, ?_⟩
  · simpa using hperm.length_eq
  · rw [bucketsTracks_perm hperm.symm, bucketsTracks_cons]
  · rw [heapTracksTotal_perm hperm.symm, heapTracksTotal_cons]

lemma mem_pushHeap (h : List ArtistBucket) (b x : ArtistBucket) :
    x ∈ pushHeap h b ↔ x = b ∨ x ∈ h := by
  rw [(pushHeap_perm h b).mem_iff]
  simp

lemma pushHeap_keys_perm (h : List ArtistBucket) (b : ArtistBucket) :
    List.Perm ((pushHeap h b).map ArtistBucket.key)
      (b.key :: h.map ArtistBucket.key) := by
  have := (pushHeap_perm h b).map ArtistBucket.key
  simpa using this

lemma popHeap_mem_of_mem (h : List ArtistBucket) (b : ArtistBucket)
    (h2 : List ArtistBucket) (hp : popHeap h = some (b, h2)) :
    ∀ x ∈ h2, x ∈ h := by
  obtain ⟨_, hperm⟩ := popHeap_some h b h2 hp
  intro x hx
  exact hperm.subset (List.mem_cons_of_mem _ hx)

lemma smartLoopF_nil (fuel : Nat) (h : List ArtistBucket)
    (lastKey : Option String) (hp : popHeap h = Option.none) :
    smartLoopF (fuel + 1) h lastKey = [] := by
  rw [smartLoopF]
  simp only [hp]

lemma smartLoopF_skip (fuel : Nat) (h h0 : List ArtistBucket)
    (b0 : ArtistBucket) (lastKey : Option String)
    (hp : popHeap h = some (b0, h0)) (hkey : ¬ some b0.key = lastKey)
    (hbt : b0.tracks = []) :
    smartLoopF (fuel + 1) h lastKey = smartLoopF fuel h0 lastKey := by
  rw [smartLoopF]
  simp only [hp, hbt]
  rw [if_neg hkey]

lemma smartLoopF_emit (fuel : Nat) (h h0 : List ArtistBucket)
    (b0 : ArtistBucket) (lastKey : Option String) (t : Track) (ts : List Track)
    (hp : popHeap h = some (b0, h0)) (hkey : ¬ some b0.key = lastKey)
    (hbt : b0.tracks = t :: ts) :
    smartLoopF (fuel + 1) h lastKey
      = t :: smartLoopF fuel
          (if ts.isEmpty then h0 else pushHeap h0 { b0 with tracks := ts })
          (some b0.key) := by
  rw [smartLoopF]
  simp only [hp, hbt]
  rw [if_neg hkey]

lemma smartLoopF_skip_noalt (fuel : Nat) (h h0 : List ArtistBucket)
    (b0 : ArtistBucket) (lastKey : Option String)
    (hp : popHeap h = some (b0, h0)) (hkey : some b0.key = lastKey)
    (hp2 : popHeap h0 = Option.none) (hbt : b0.tracks = []) :
    smartLoopF (fuel + 1) h lastKey = smartLoopF fuel h0 lastKey := by
  rw [smartLoopF]
  simp only [hp, hp2, hbt]
  rw [if_pos hkey]

lemma smartLoopF_emit_noalt (fuel : Nat) (h h0 : List ArtistBucket)
    (b0 : ArtistBucket) (lastKey : Option String) (t : Track) (ts : List Track)
    (hp : popHeap h = some (b0, h0)) (hkey : some b0.key = lastKey)
    (hp2 : popHeap h0 = Option.none) (hbt : b0.tracks = t :: ts) :
    smartLoopF (fuel + 1) h lastKey
      = t :: smartLoopF fuel
          (if ts.isEmpty then h0 else pushHeap h0 { b0 with tracks := ts })
          (some b0.key) := by
  rw [smartLoopF]
  simp only [hp, hp2, hbt]
  rw [if_pos hkey]

lemma smartLoopF_skip_alt (fuel : Nat) (h h0 h0' : List ArtistBucket)
    (b0 alt : ArtistBucket) (lastKey : Option String)
    (hp : popHeap h = some (b0, h0)) (hkey : some b0.key = lastKey)
    (hp2 : popHeap h0 = some (alt, h0')) (halt : alt.tracks = []) :
    smartLoopF (fuel + 1) h lastKey
      = smartLoopF fuel (pushHeap h0' b0) lastKey := by
  rw [smartLoopF]
  simp only [hp, hp2, halt]
  rw [if_pos hkey]

lemma smartLoopF_emit_alt (fuel : Nat) (h h0 h0' : List ArtistBucket)
    (b0 alt : ArtistBucket) (lastKey : Option String) (t : Track) (ts : List Track)
    (hp : popHeap h = some (b0, h0)) (hkey : some b0.key = lastKey)
    (hp2 : popHeap h0 = some (alt, h0')) (halt : alt.tracks = t :: ts) :
    smartLoopF (fuel + 1) h lastKey
      = t :: smartLoopF fuel
          (if ts.isEmpty then pushHeap h0' b0
           else pushHeap (pushHeap h0' b0) { alt with tracks := ts })
          (some alt.key) := by
  rw [smartLoopF]
  simp only [hp, hp2, halt]
  rw [if_pos hkey]

lemma emit_tracks_step (fuel : Nat)
    (ih : ∀ (h : List ArtistBucket) (lastKey : Option String),
        2 * heapTracksTotal h + h.length < fuel →
        (↑(smartLoopF fuel h lastKey) : Multiset Track) = bucketsTracks h)
    (b : ArtistBucket) (t : Track) (ts : List Track) (hbt : b.tracks = t :: ts)
    (hrest : List ArtistBucket) (newKey : Option String)
    (hfuel : 2 * (bsize b + heapTracksTotal hrest) + hrest.length < fuel + 1) :
    (↑(t :: smartLoopF fuel
        (if ts.isEmpty then hrest else pushHeap hrest { b with tracks := ts })
        newKey) : Multiset Track)
      = ↑b.tracks + bucketsTracks hrest := by
  have hsz : bsize b = ts.length + 1 := by simp [bsize, hbt]
  by_cases hts : ts.isEmpty
  · have hts' : ts = [] := by simpa using hts
    subst hts'
    rw [if_pos hts]
    have hrec := ih hrest newKey (by simp at hsz; omega)
    rw [← Multiset.cons_coe, hrec, hbt]
    simp
  · rw [if_neg hts]
    have hrec := ih (pushHeap hrest { b with tracks := ts }) newKey (by
      have h1 := pushHeap_total hrest { b with tracks := ts }
      have h2 := pushHeap_length hrest { b with tracks := ts }
      have h3 : bsize { b with tracks := ts } = ts.length := rfl
      omega)
    rw [← Multiset.cons_coe, hrec, pushHeap_tracks, hbt]
    have h3 : ({ b with tracks := ts } : ArtistBucket).tracks = ts := rfl
    rw [h3, ← Multiset.cons_coe, Multiset.cons_add]

lemma smartLoopF_tracks (fuel : Nat) :
    ∀ (h : List ArtistBucket) (lastKey : Option String),
      2 * heapTracksTotal h + h.length < fuel →
      (↑(smartLoopF fuel h lastKey) : Multiset Track) = bucketsTracks h := by
  induction fuel with
  | zero =>
    intro h lastKey hf
    exact absurd hf (Nat.not_lt_zero _)
  | succ fuel ih =>
    intro h lastKey hf
    cases hpop : popHeap h with
    | none =>
      rw [smartLoopF_nil fuel h lastKey hpop, (popHeap_eq_none_iff h).mp hpop]
      simp [bucketsTracks]
    | some pr =>
      obtain ⟨b0, h0⟩ := pr
      obtain ⟨hb0mem, hlen0, htr0, htot0⟩ := popHeap_facts h b0 h0 hpop
      by_cases hkey : some b0.key = lastKey
      · cases hpop2 : popHeap h0 with
        | none =>
          cases hbt : b0.tracks with
          | nil =>
            rw [smartLoopF_skip_noalt fuel h h0 b0 lastKey hpop hkey hpop2 hbt]
            have hb0sz : bsize b0 = 0 := by simp [bsize, hbt]
            rw [ih h0 lastKey (by omega), htr0, hbt]
            simp
          | cons t ts =>
            rw [smartLoopF_emit_noalt fuel h h0 b0 lastKey t ts hpop hkey hpop2 hbt]
            rw [emit_tracks_step fuel ih b0 t ts hbt h0 (some b0.key) (by omega)]
            rw [htr0]
        | some pr2 =>
          obtain ⟨alt, h0'⟩ := pr2
          obtain ⟨haltmem, hlen2, htr2, htot2⟩ := popHeap_facts h0 alt h0' hpop2
          have hpl := pushHeap_length h0' b0
          have hpt := pushHeap_total h0' b0
          have hptr := pushHeap_tracks h0' b0
          cases halt : alt.tracks with
          | nil =>
            rw [smartLoopF_skip_alt fuel h h0 h0' b0 alt lastKey hpop hkey hpop2 halt]
            have haltsz : bsize alt = 0 := by simp [bsize, halt]
            rw [ih (pushHeap h0' b0) lastKey (by omega), hptr, htr0, htr2, halt]
            simp
          | cons t ts =>
            rw [smartLoopF_emit_alt fuel h h0 h0' b0 alt lastKey t ts hpop hkey hpop2 halt]
            rw [emit_tracks_step fuel ih alt t ts halt (pushHeap h0' b0) (some alt.key)
              (by omega)]
            rw [hptr, htr0, htr2]
            apply add_left_comm
      · cases hbt : b0.tracks with
        | nil =>
          rw [smartLoopF_skip fuel h h0 b0 lastKey hpop hkey hbt]
          have hb0sz : bsize b0 = 0 := by simp [bsize, hbt]
          rw [ih h0 lastKey (by omega), htr0, hbt]
          simp
        | cons t ts =>
          rw [smartLoopF_emit fuel h h0 b0 lastKey t ts hpop hkey hbt]
          rw [emit_tracks_step fuel ih b0 t ts hbt h0 (some b0.key) (by omega)]
          rw [htr0]

lemma emit_branch_chain (fuel : Nat)
    (ih : ∀ (h : List ArtistBucket) (lastKey : Option String),
        IsHeap h →
        (∀ b ∈ h, 1 ≤ bsize b) →
        (h.map ArtistBucket.key).Nodup →
        (∀ b ∈ h, ∀ tr ∈ b.tracks, authorKey tr = b.key) →
        (∀ b ∈ h, 2 * bsize b ≤ heapTracksTotal h + 1) →
        (∀ k, lastKey = some k → ∀ b ∈ h, b.key = k →
            2 * bsize b ≤ heapTracksTotal h) →
        List.Chain' (fun a b => authorKey a ≠ authorKey b) (smartLoopF fuel h lastKey)
          ∧ ∀ k tr, lastKey = some k →
              (smartLoopF fuel h lastKey).head? = some tr → authorKey tr ≠ k)
    (bucket : ArtistBucket) (t : Track) (ts : List Track)
    (hbt : bucket.tracks = t :: ts)
    (hrest : List ArtistBucket) (lastKey : Option String)
    (hIs : IsHeap hrest)
    (hne : ∀ b ∈ hrest, 1 ≤ bsize b)
    (hnodup : ((bucket :: hrest).map ArtistBucket.key).Nodup)
    (hWF : ∀ b ∈ bucket :: hrest, ∀ tr ∈ b.tracks, authorKey tr = b.key)
    (hbound : ∀ b ∈ bucket :: hrest,
        2 * bsize b ≤ heapTracksTotal (bucket :: hrest) + 1)
    (hlast : ∀ k, lastKey = some k → ∀ b ∈ bucket :: hrest, b.key = k →
        2 * bsize b ≤ heapTracksTotal (bucket :: hrest))
    (hmax : ∀ x ∈ hrest, (∀ k, lastKey = some k → x.key ≠ k) →
        bsize x ≤ bsize bucket) :
    List.Chain' (fun a b => authorKey a ≠ authorKey b)
      (t :: smartLoopF fuel
        (if ts.isEmpty then hrest else pushHeap hrest { bucket with tracks := ts })
        (some bucket.key))
    ∧ authorKey t = bucket.key := by
  have hkey_not : bucket.key ∉ hrest.map ArtistBucket.key := by
    rw [List.map_cons] at hnodup
    exact (List.nodup_cons.mp hnodup).1
  have hrest_nodup : (hrest.map ArtistBucket.key).Nodup := by
    rw [List.map_cons] at hnodup
    exact (List.nodup_cons.mp hnodup).2
  have hT : heapTracksTotal (bucket :: hrest)
      = bsize bucket + heapTracksTotal hrest := heapTracksTotal_cons _ _
  have hsz : bsize bucket = ts.length + 1 := by simp [bsize, hbt]
  have hat : authorKey t = bucket.key :=
    hWF bucket (List.mem_cons_self _ _) t (by rw [hbt]; exact List.mem_cons_self _ _)
  have hrest_bound : ∀ b ∈ hrest,
      2 * bsize b ≤ heapTracksTotal (bucket :: hrest) := by
    intro b hb
    by_cases hx : ∃ k, lastKey = some k ∧ b.key = k
    · obtain ⟨k, hk, hbk⟩ := hx
      exact hlast k hk b (List.mem_cons_of_mem _ hb) hbk
    · have h1 : bsize b ≤ bsize bucket := by
        apply hmax b hb
        intro k hk hbk
        exact hx ⟨k, hk, hbk⟩
      have h2 : bsize b ≤ heapTracksTotal hrest := bsize_le_total hrest b hb
      omega
  set h2 := (if ts.isEmpty then hrest
    else pushHeap hrest { bucket with tracks := ts }) with hh2
  have hmem2 : ∀ x ∈ h2, x = { bucket with tracks := ts } ∨ x ∈ hrest := by
    intro x hx
    rw [hh2] at hx
    by_cases hts : ts.isEmpty
    · rw [if_pos hts] at hx
      exact Or.inr hx
    · rw [if_neg hts] at hx
      exact (mem_pushHeap hrest { bucket with tracks := ts } x).mp hx
  have hT2 : heapTracksTotal h2 + 1 = heapTracksTotal (bucket :: hrest) := by
    rw [hh2]
    by_cases hts : ts.isEmpty
    · have hts' : ts = [] := by simpa using hts
      rw [if_pos hts, hT]
      subst hts'
      simp only [List.length_nil] at hsz
      omega
    · rw [if_neg hts, pushHeap_total, hT]
      have hbs : bsize { bucket with tracks := ts } = ts.length := rfl
      omega
  have hIs2 : IsHeap h2 := by
    rw [hh2]
    by_cases hts : ts.isEmpty
    · rw [if_pos hts]
      exact hIs
    · rw [if_neg hts]
      exact pushHeap_isHeap _ _ hIs
  have hne2 : ∀ b ∈ h2, 1 ≤ bsize b := by
    intro b hb
    rw [hh2] at hb
    by_cases hts : ts.isEmpty
    · rw [if_pos hts] at hb
      exact hne b hb
    · rw [if_neg hts] at hb
      rcases (mem_pushHeap _ _ _).mp hb with rfl | hb2
      · have hts' : ts ≠ [] := by simpa using hts
        exact List.length_pos.mpr hts'
      · exact hne b hb2
  have hnodup2 : (h2.map ArtistBucket.key).Nodup := by
    rw [hh2]
    by_cases hts : ts.isEmpty
    · rw [if_pos hts]
      exact hrest_nodup
    · rw [if_neg hts]
      have hp := pushHeap_keys_perm hrest { bucket with tracks := ts }
      rw [hp.nodup_iff]
      have hk : ({ bucket with tracks := ts } : ArtistBucket).key = bucket.key := rfl
      rw [hk]
      rw [List.map_cons] at hnodup
      exact hnodup
  have hWF2 : ∀ b ∈ h2, ∀ tr ∈ b.tracks, authorKey tr = b.key := by
    intro b hb tr htr
    rcases hmem2 b hb with rfl | hb2
    · have htr' : tr ∈ bucket.tracks := by
        rw [hbt]
        exact List.mem_cons_of_mem _ htr
      exact hWF bucket (List.mem_cons_self _ _) tr htr'
    · exact hWF b (List.mem_cons_of_mem _ hb2) tr htr
  have hbound2 : ∀ b ∈ h2, 2 * bsize b ≤ heapTracksTotal h2 + 1 := by
    intro b hb
    rcases hmem2 b hb with rfl | hb2
    · have hB := hbound bucket (List.mem_cons_self _ _)
      have hbs : bsize { bucket with tracks := ts } = ts.length := rfl
      omega
    · have := hrest_bound b hb2
      omega
  have hlast2 : ∀ k, (some bucket.key : Option String) = some k → ∀ b ∈ h2,
      b.key = k → 2 * bsize b ≤ heapTracksTotal h2 := by
    intro k hk b hb hbk
    have hkk : bucket.key = k := Option.some.inj hk
    rcases hmem2 b hb with rfl | hb2
    · have hB := hbound bucket (List.mem_cons_self _ _)
      have hbs : bsize { bucket with tracks := ts } = ts.length := rfl
      omega
    · exfalso
      apply hkey_not
      have hm : b.key ∈ hrest.map ArtistBucket.key := List.mem_map_of_mem _ hb2
      rw [hbk, ← hkk] at hm
      exact hm
  obtain ⟨hchain, hhead⟩ :=
    ih h2 (some bucket.key) hIs2 hne2 hnodup2 hWF2 hbound2 hlast2
  refine ⟨?_, hat⟩
  rw [List.chain'_cons']
  refine ⟨?_, hchain⟩
  intro u hu
  rw [Option.mem_def] at hu
  have hu' := hhead bucket.key u rfl hu
  show authorKey t ≠ authorKey u
  rw [hat]
  exact fun hc => hu' hc.symm

lemma smartLoopF_chain (fuel : Nat) :
    ∀ (h : List ArtistBucket) (lastKey : Option String),
      IsHeap h →
      (∀ b ∈ h, 1 ≤ bsize b) →
      (h.map ArtistBucket.key).Nodup →
      (∀ b ∈ h, ∀ tr ∈ b.tracks, authorKey tr = b.key) →
      (∀ b ∈ h, 2 * bsize b ≤ heapTracksTotal h + 1) →
      (∀ k, lastKey = some k → ∀ b ∈ h, b.key = k →
          2 * bsize b ≤ heapTracksTotal h) →
      List.Chain' (fun a b => authorKey a ≠ authorKey b) (smartLoopF fuel h lastKey)
        ∧ ∀ k tr, lastKey = some k →
            (smartLoopF fuel h lastKey).head? = some tr → authorKey tr ≠ k := by
  induction fuel with
  | zero =>
    intro h lastKey _ _ _ _ _ _
    rw [smartLoopF]
    exact ⟨List.chain'_nil, by intro k tr _ htr; simp at htr⟩
  | succ fuel ih =>
    intro h lastKey hIs hne hnodup hWF hbound hlast
    cases hpop : popHeap h with
    | none =>
      rw [smartLoopF_nil fuel h lastKey hpop]
      exact ⟨List.chain'_nil, by intro k tr _ htr; simp at htr⟩
    | some pr =>
      obtain ⟨b0, h0⟩ := pr
      obtain ⟨_, hperm⟩ := popHeap_some h b0 h0 hpop
      have hIs0 : IsHeap h0 := popHeap_isHeap h b0 h0 hIs hpop
      have hb0 : b0 ∈ h := hperm.subset (List.mem_cons_self _ _)
      have hb0ne : 1 ≤ bsize b0 := hne b0 hb0
      have hnodup' : ((b0 :: h0).map ArtistBucket.key).Nodup :=
        ((hperm.map _).nodup_iff).mpr hnodup
      have hWF' : ∀ b ∈ b0 :: h0, ∀ tr ∈ b.tracks, authorKey tr = b.key :=
        fun b hb => hWF b (hperm.subset hb)
      have hTeq : heapTracksTotal (b0 :: h0) = heapTracksTotal h :=
        heapTracksTotal_perm hperm
      have hbound' : ∀ b ∈ b0 :: h0,
          2 * bsize b ≤ heapTracksTotal (b0 :: h0) + 1 := by
        intro b hb
        rw [hTeq]
        exact hbound b (hperm.subset hb)
      have hlast' : ∀ k, lastKey = some k → ∀ b ∈ b0 :: h0, b.key = k →
          2 * bsize b ≤ heapTracksTotal (b0 :: h0) := by
        intro k hk b hb hbk
        rw [hTeq]
        exact hlast k hk b (hperm.subset hb) hbk
      have hne0 : ∀ b ∈ h0, 1 ≤ bsize b :=
        fun b hb => hne b (hperm.subset (List.mem_cons_of_mem _ hb))
      by_cases hkey : some b0.key = lastKey
      · cases hpop2 : popHeap h0 with
        | none =>
          exfalso
          have h0nil : h0 = [] := (popHeap_eq_none_iff h0).mp hpop2
          have hx := hlast' b0.key hkey.symm b0 (List.mem_cons_self _ _) rfl
          rw [h0nil, heapTracksTotal_cons] at hx
          have hz : heapTracksTotal ([] : List ArtistBucket) = 0 := rfl
          omega
        | some pr2 =>
          obtain ⟨alt, h0'⟩ := pr2
          obtain ⟨_, hperm2⟩ := popHeap_some h0 alt h0' hpop2
          have halt_mem : alt ∈ h0 := hperm2.subset (List.mem_cons_self _ _)
          have halt_mem_h : alt ∈ h :=
            hperm.subset (List.mem_cons_of_mem _ halt_mem)
          have halt_ne : 1 ≤ bsize alt := hne alt halt_mem_h
          cases haltt : alt.tracks with
          | nil =>
            exfalso
            simp [bsize, haltt] at halt_ne
          | cons t ts =>
            rw [smartLoopF_emit_alt fuel h h0 h0' b0 alt lastKey t ts hpop hkey
              hpop2 haltt]
            have hmemR : ∀ x ∈ pushHeap h0' b0, x ∈ h := by
              intro x hx
              rcases (mem_pushHeap h0' b0 x).mp hx with rfl | hx2
              · exact hb0
              · exact hperm.subset (List.mem_cons_of_mem _
                  (hperm2.subset (List.mem_cons_of_mem _ hx2)))
            have hmemA : ∀ x ∈ alt :: pushHeap h0' b0, x ∈ h := by
              intro x hx
              rcases List.mem_cons.mp hx with rfl | hx2
              · exact halt_mem_h
              · exact hmemR x hx2
            have hIsR : IsHeap (pushHeap h0' b0) :=
              pushHeap_isHeap _ _ (popHeap_isHeap h0 alt h0' hIs0 hpop2)
            have hneR : ∀ b ∈ pushHeap h0' b0, 1 ≤ bsize b := by
              intro b hb
              exact hne b (hmemR b hb)
            have hkp : List.Perm ((alt :: pushHeap h0' b0).map ArtistBucket.key)
                ((b0 :: h0).map ArtistBucket.key) := by
              simp only [List.map_cons]
              exact (List.Perm.cons alt.key (pushHeap_keys_perm h0' b0)).trans
                ((List.Perm.swap b0.key alt.key _).trans
                  (List.Perm.cons b0.key (hperm2.map ArtistBucket.key)))
            have hnodupA : ((alt :: pushHeap h0' b0).map ArtistBucket.key).Nodup :=
              hkp.nodup_iff.mpr hnodup'
            have hWFA : ∀ b ∈ alt :: pushHeap h0' b0, ∀ tr ∈ b.tracks,
                authorKey tr = b.key :=
              fun b hb => hWF b (hmemA b hb)
            have hTA : heapTracksTotal (alt :: pushHeap h0' b0)
                = heapTracksTotal h := by
              rw [heapTracksTotal_cons, pushHeap_total, ← hTeq,
                heapTracksTotal_cons, ← heapTracksTotal_perm hperm2,
                heapTracksTotal_cons]
              omega
            have hboundA : ∀ b ∈ alt :: pushHeap h0' b0,
                2 * bsize b ≤ heapTracksTotal (alt :: pushHeap h0' b0) + 1 := by
              intro b hb
              rw [hTA]
              exact hbound b (hmemA b hb)
            have hlastA : ∀ k, lastKey = some k → ∀ b ∈ alt :: pushHeap h0' b0,
                b.key = k → 2 * bsize b ≤ heapTracksTotal (alt :: pushHeap h0' b0) := by
              intro k hk b hb hbk
              rw [hTA]
              exact hlast k hk b (hmemA b hb) hbk
            have hmaxA : ∀ x ∈ pushHeap h0' b0,
                (∀ k, lastKey = some k → x.key ≠ k) → bsize x ≤ bsize alt := by
              intro x hx hxk
              rcases (mem_pushHeap h0' b0 x).mp hx with rfl | hx2
              · exfalso
                exact hxk _ hkey.symm rfl
              · exact popHeap_max h0 alt h0' hIs0 hpop2 x
                  (hperm2.subset (List.mem_cons_of_mem _ hx2))
            have HB := emit_branch_chain fuel ih alt t ts haltt
              (pushHeap h0' b0) lastKey hIsR hneR hnodupA hWFA hboundA hlastA hmaxA
            refine ⟨HB.1, ?_⟩
            intro k tr hk htr
            rw [List.head?_cons, Option.some.injEq] at htr
            subst htr
            rw [HB.2]
            have hbk : b0.key = k := Option.some.inj (hkey.trans hk)
            have haa : alt.key ≠ b0.key := by
              intro hC
              have h1 : b0.key ∉ h0.map ArtistBucket.key := by
                have h2 := hnodup'
                simp only [List.map_cons, List.nodup_cons] at h2
                exact h2.1
              apply h1
              rw [← hC]
              exact List.mem_map_of_mem _ halt_mem
            rw [← hbk]
            exact haa
      · cases hbt : b0.tracks with
        | nil =>
          exfalso
          simp [bsize, hbt] at hb0ne
        | cons t ts =>
          rw [smartLoopF_emit fuel h h0 b0 lastKey t ts hpop hkey hbt]
          have hmax0 : ∀ x ∈ h0,
              (∀ k, lastKey = some k → x.key ≠ k) → bsize x ≤ bsize b0 := by
            intro x hx _
            exact popHeap_max h b0 h0 hIs hpop x
              (hperm.subset (List.mem_cons_of_mem _ hx))
          have HB := emit_branch_chain fuel ih b0 t ts hbt h0 lastKey
            hIs0 hne0 hnodup' hWF' hbound' hlast' hmax0
          refine ⟨HB.1, ?_⟩
          intro k tr hk htr
          rw [List.head?_cons, Option.some.injEq] at htr
          subst htr
          rw [HB.2]
          intro hC
          apply hkey
          rw [hC, hk]

lemma isHeap_nil : IsHeap ([] : List ArtistBucket) := by
  intro j _ hlt
  simp only [List.length_nil] at hlt
  omega

lemma foldl_pushHeap_isHeap (bs : List ArtistBucket) :
    ∀ acc, IsHeap acc → IsHeap (bs.foldl pushHeap acc) := by
  induction bs with
  | nil => intro acc hacc; exact hacc
  | cons b rest ih =>
    intro acc hacc
    exact ih (pushHeap acc b) (pushHeap_isHeap acc b hacc)

lemma foldl_pushHeap_perm (bs : List ArtistBucket) :
    ∀ acc, List.Perm (bs.foldl pushHeap acc) (acc ++ bs) := by
  induction bs with
  | nil => intro acc; simp
  | cons b rest ih =>
    intro acc
    have h1 := ih (pushHeap acc b)
    have h2 : List.Perm (pushHeap acc b ++ rest) ((b :: acc) ++ rest) :=
      (pushHeap_perm acc b).append_right rest
    have h3 : List.Perm ((b :: acc) ++ rest) (acc ++ b :: rest) := by
      simp only [List.cons_append]
      exact List.perm_middle.symm
    exact (h1.trans h2).trans h3

lemma heapTracksTotal_eq_card (bs : List ArtistBucket) :
    heapTracksTotal bs = Multiset.card (bucketsTracks bs) := by
  induction bs with
  | nil => rfl
  | cons b rest ih =>
    rw [heapTracksTotal_cons, bucketsTracks_cons]
    simp [ih, bsize]

lemma mem_bucketsTracks (bs : List ArtistBucket) (b : ArtistBucket)
    (hb : b ∈ bs) (t : Track) (ht : t ∈ b.tracks) : t ∈ bucketsTracks bs := by
  induction bs with
  | nil => cases hb
  | cons b0 rest ih =>
    rw [bucketsTracks_cons, Multiset.mem_add]
    rcases List.mem_cons.mp hb with rfl | hb2
    · exact Or.inl (Multiset.mem_coe.mpr ht)
    · exact Or.inr (ih hb2)

lemma smartShuffle_id (q : Queue) (rand : Nat → Nat → Nat)
    (h : q.tracks.length ≤ 1) : q.smartShuffle rand = q := by
  rw [Queue.smartShuffle, if_pos h]

lemma smartShuffle_tracks_def (q : Queue) (rand : Nat → Nat → Nat)
    (h : ¬ q.tracks.length ≤ 1) :
    (q.smartShuffle rand).tracks
      = smartLoopF (2 * heapTracksTotal (List.foldl pushHeap []
            (shuffleBuckets rand 0 (groupByAuthor q.tracks)))
          + (List.foldl pushHeap []
              (shuffleBuckets rand 0 (groupByAuthor q.tracks))).length + 1)
          (List.foldl pushHeap [] (shuffleBuckets rand 0 (groupByAuthor q.tracks)))
          Option.none := by
  rw [Queue.smartShuffle, if_neg h]

lemma smartShuffle_frame (q : Queue) (rand : Nat → Nat → Nat) :
    (q.smartShuffle rand).current = q.current
    ∧ (q.smartShuffle rand).previous = q.previous
    ∧ (q.smartShuffle rand).loopMode = q.loopMode := by
  rw [Queue.smartShuffle]
  by_cases h : q.tracks.length ≤ 1
  · rw [if_pos h]
    exact ⟨rfl, rfl, rfl⟩
  · rw [if_neg h]
    exact ⟨rfl, rfl, rfl⟩

lemma smartShuffle_perm (q : Queue) (rand : Nat → Nat → Nat) :
    List.Perm (q.smartShuffle rand).tracks q.tracks := by
  by_cases hlen : q.tracks.length ≤ 1
  · rw [smartShuffle_id q rand hlen]
  · rw [← Multiset.coe_eq_coe, smartShuffle_tracks_def q rand hlen]
    have hperm' : List.Perm
        (List.foldl pushHeap [] (shuffleBuckets rand 0 (groupByAuthor q.tracks)))
        (shuffleBuckets rand 0 (groupByAuthor q.tracks)) := by
      have := foldl_pushHeap_perm (shuffleBuckets rand 0 (groupByAuthor q.tracks)) []
      simpa using this
    rw [smartLoopF_tracks _ _ _ (by omega), bucketsTracks_perm hperm',
      shuffleBuckets_tracks, bucketsTracks_groupByAuthor]

lemma smartShuffle_chain_core (l : List Track) (rand : Nat → Nat → Nat)
    (hcnt : ∀ t ∈ l, l.countP (fun t2 => decide (authorKey t2 = authorKey t))
        ≤ (l.length + 1) / 2) :
    List.Chain' (fun a b => authorKey a ≠ authorKey b)
      (smartLoopF (2 * heapTracksTotal (List.foldl pushHeap []
          (shuffleBuckets rand 0 (groupByAuthor l)))
        + (List.foldl pushHeap [] (shuffleBuckets rand 0 (groupByAuthor l))).length + 1)
        (List.foldl pushHeap [] (shuffleBuckets rand 0 (groupByAuthor l)))
        Option.none) := by
  set B := shuffleBuckets rand 0 (groupByAuthor l) with hB
  set H := List.foldl pushHeap [] B with hH
  have hpermHB : List.Perm H B := by
    rw [hH]
    have := foldl_pushHeap_perm B []
    simpa using this
  have hWFB : bucketsWF B := by
    rw [hB]
    exact shuffleBuckets_WF rand 0 _ (groupByAuthor_WF l)
  have hNodB : keysNodup B := by
    rw [hB]
    exact shuffleBuckets_keysNodup rand 0 _ (groupByAuthor_keysNodup l)
  have htrB : bucketsTracks B = ↑l := by
    rw [hB, shuffleBuckets_tracks, bucketsTracks_groupByAuthor]
  have hmemHB : ∀ b ∈ H, b ∈ B := fun b hb => hpermHB.subset hb
  have hIsH : IsHeap H := by
    rw [hH]
    exact foldl_pushHeap_isHeap B [] isHeap_nil
  have htrH : bucketsTracks H = ↑l := by
    rw [bucketsTracks_perm hpermHB, htrB]
  have htotH : heapTracksTotal H = l.length := by
    rw [heapTracksTotal_eq_card, htrH]
    simp
  have hne : ∀ b ∈ H, 1 ≤ bsize b := by
    intro b hb
    have hbne : b.tracks ≠ [] := (hWFB b (hmemHB b hb)).2
    exact List.length_pos.mpr hbne
  have hnodupH : (H.map ArtistBucket.key).Nodup := by
    rw [(hpermHB.map ArtistBucket.key).nodup_iff]
    exact hNodB
  have hWFH : ∀ b ∈ H, ∀ tr ∈ b.tracks, authorKey tr = b.key :=
    fun b hb => (hWFB b (hmemHB b hb)).1
  have hbound : ∀ b ∈ H, 2 * bsize b ≤ heapTracksTotal H + 1 := by
    intro b hb
    have hbB : b ∈ B := hmemHB b hb
    have hbne : b.tracks ≠ [] := (hWFB b hbB).2
    obtain ⟨t0, ht0⟩ := List.exists_mem_of_ne_nil b.tracks hbne
    have hkey : authorKey t0 = b.key := (hWFB b hbB).1 t0 ht0
    have ht0l : t0 ∈ l := by
      have hm := mem_bucketsTracks B b hbB t0 ht0
      rw [htrB] at hm
      exact Multiset.mem_coe.mp hm
    have h1 : bsize b
        ≤ Multiset.countP (fun t => authorKey t = b.key) (bucketsTracks B) :=
      bsize_le_countP B (fun x hx => (hWFB x hx).1) b hbB
    rw [htrB] at h1
    have h2 : Multiset.countP (fun t => authorKey t = b.key) (↑l : Multiset Track)
        = l.countP (fun t => decide (authorKey t = b.key)) := by
      simp [Multiset.coe_countP]
    have h3 := hcnt t0 ht0l
    rw [hkey] at h3
    rw [htotH]
    omega
  have hchain := smartLoopF_chain (2 * heapTracksTotal H + H.length + 1)
    H Option.none hIsH hne hnodupH hWFH hbound (by intro k hk; simp at hk)
  exact hchain.1

/-- C4: `Queue.smartShuffle` — for every input and every outcome of the
internal randomness the output track list is a permutation of the input and
`current`, `previous` and `loopMode` are untouched; an input of at most one
track is left entirely unchanged; and whenever no single author (trimmed,
case-folded) occurs more than `⌈n/2⌉` times among the `n` queued tracks, no
two adjacent output tracks share an author. -/
theorem claim_C4_smart_shuffle :
    (∀ (q : Queue) (rand : Nat → Nat → Nat),
        List.Perm (q.smartShuffle rand).tracks q.tracks
          ∧ (q.smartShuffle rand).current = q.current
          ∧ (q.smartShuffle rand).previous = q.previous
          ∧ (q.smartShuffle rand).loopMode = q.loopMode)
    ∧ (∀ (q : Queue) (rand : Nat → Nat → Nat),
        q.tracks.length ≤ 1 → q.smartShuffle rand = q)
    ∧ (∀ (q : Queue) (rand : Nat → Nat → Nat),
        (∀ t ∈ q.tracks,
            q.tracks.countP (fun t2 => decide (authorKey t2 = authorKey t))
              ≤ (q.tracks.length + 1) / 2) →
        List.Chain' (fun a b => authorKey a ≠ authorKey b)
          (q.smartShuffle rand).tracks) := by
  refine ⟨?_, ?_, ?_⟩
  · intro q rand
    exact ⟨smartShuffle_perm q rand, smartShuffle_frame q rand⟩
  · intro q rand h
    exact smartShuffle_id q rand h
  · intro q rand hcnt
    by_cases hlen : q.tracks.length ≤ 1
    · rw [smartShuffle_id q rand hlen]
      cases hq : q.tracks with
      | nil => exact List.chain'_nil
      | cons a l =>
        cases l with
        | nil => exact List.chain'_singleton a
        | cons b l2 =>
          rw [hq] at hlen
          simp at hlen
    · rw [smartShuffle_tracks_def q rand hlen]
      exact smartShuffle_chain_core q.tracks rand hcnt

/-- C4 witness: on the concrete five-track queue (dominant author occurring
exactly `⌈5/2⌉` times) the shuffled output has no adjacent same-author pair,
and the single-track queue is a fixed point of smart shuffle. -/
theorem claim_C4_smart_shuffle_witness :
    List.Chain' (fun a b => authorKey a ≠ authorKey b)
      ((qSmartEx.smartShuffle randZero).tracks)
    ∧ qSmartOne.smartShuffle randZero = qSmartOne :=
  ⟨claim_C4_smart_shuffle.2.2 qSmartEx randZero (by decide),
   claim_C4_smart_shuffle.2.1 qSmartOne randZero (by decide)⟩

end Rias
